import Mathlib

/-!
# Verification of the course-scheduler solver core

This file gives a shallow embedding, in Lean 4, of the scheduling core
implemented in `src/solver/app.py` (option generation, hard-constraint model
construction, objective formulation, and the result assembler), and proves or
refutes the frozen claims about it.

Conventions of the embedding:
* Python `str` becomes `String`, `int` becomes `Int`, `float` weights become `ℚ`
  (all arithmetic on them in the program is exact on the values used here),
  Python `Optional[T]` becomes `Option T`.
* Python dictionaries built by comprehensions (`{k.id: k for k in xs}`) have
  last-wins semantics on duplicate keys; they are embedded by `lastLookup`.
* Python truthiness tests on optional strings / lists / ints (`if lock.fixed_room:`)
  are embedded by the `truthy*` helpers: `None`, `""`, `[]` and `0` are falsy.
* Python `int(x)` truncation toward zero on a float becomes `pyInt : ℚ → ℤ`.
* CP-SAT variables become explicit valuation functions (`x`, `u`, `d`, `e`)
  and each constraint family becomes an executable `Bool`-valued checker over
  those valuations, mirroring the constraint generation loops of the source.
-/

/-- Truthiness of an optional string: `None` and `""` are falsy. -/
def truthyOptStr : Option String → Bool
  | none => false
  | some s => s ≠ ""

/-- Truthiness of an optional string list: `None` and `[]` are falsy. -/
def truthyOptList : Option (List String) → Bool
  | none => false
  | some l => !l.isEmpty

/-- Truthiness of an optional int: `None` and `0` are falsy. -/
def truthyOptInt : Option Int → Bool
  | none => false
  | some n => n ≠ 0

/-- Python `int(q)` on a float: truncation toward zero. -/
def pyInt (q : ℚ) : ℤ := if q < 0 then ⌈q⌉ else ⌊q⌋

/-- A 0/1 integer view of a boolean CP-SAT variable value. -/
def b2z (b : Bool) : ℤ := if b then 1 else 0

/-- Set equality of two string lists, as Python's `set(a) == set(b)`. -/
def listSetEq (a b : List String) : Bool :=
  a.all (b.contains ·) && b.all (a.contains ·)

/-- Lookup with the last-wins semantics of a Python dict comprehension
`{p.1: p.2 for p in l}`. -/
def lastLookup {α : Type} : List (String × α) → String → Option α
  | [], _ => none
  | p :: rest, k =>
    match lastLookup rest k with
    | some v => some v
    | none => if p.1 = k then some p.2 else none

/-- First-occurrence deduplication of keys, as the key order of a Python dict. -/
def dedupKeys : List String → List String
  | [] => []
  | k :: rest => k :: (dedupKeys rest).filter (· ≠ k)

/-- The `(key, value)` items of the Python dict built by inserting the pairs of
`l` in order: keys in first-insertion order, each mapped to its last value. -/
def dictItems {α : Type} (l : List (String × α)) : List (String × α) :=
  (dedupKeys (l.map Prod.fst)).filterMap (fun k => (lastLookup l k).map (fun v => (k, v)))

/-- The ordered pairs `(l[i], l[j])` with `i < j`, as the nested
`for i, a in enumerate(members): for b in members[i+1:]` loops. -/
def pairsOf {α : Type} : List α → List (α × α)
  | [] => []
  | a :: rest => rest.map (fun b => (a, b)) ++ pairsOf rest

/-- `Section` (pydantic model). -/
structure Section where
  id : String
  course_id : String
  section_code : String
  instructor_id : String
  expected_enrollment : Int
  enrollment_cap : Int
  allowed_meeting_patterns : List String
  room_requirements : List String
  crosslist_group_id : Option String
  tags : List String
  deriving DecidableEq

/-- `InstructorPreferences` (pydantic model). -/
structure InstructorPreferences where
  preferred_days : List String
  preferred_patterns : List String
  max_teaching_days : Option Int
  deriving DecidableEq

/-- `Instructor` (pydantic model). -/
structure Instructor where
  id : String
  rank_type : String
  unavailable_times : List String
  preferences : InstructorPreferences
  deriving DecidableEq

/-- `Room` (pydantic model). -/
structure Room where
  id : String
  building : String
  capacity : Int
  features : List String
  deriving DecidableEq

/-- `Timeslot` (pydantic model). -/
structure Timeslot where
  id : String
  day : String
  start_time : String
  end_time : String
  deriving DecidableEq

/-- `MeetingPattern` (pydantic model). -/
structure MeetingPattern where
  id : String
  slots_required : Int
  allowed_days : List String
  compatible_timeslot_sets : List (List String)
  deriving DecidableEq

/-- `CrossListGroup` (pydantic model). -/
structure CrossListGroup where
  id : String
  member_section_ids : List String
  require_same_room : Bool
  deriving DecidableEq

/-- `NoOverlapGroup` (pydantic model). -/
structure NoOverlapGroup where
  id : String
  member_section_ids : List String
  reason : String
  deriving DecidableEq

/-- `BlockedTime` (pydantic model). -/
structure BlockedTime where
  scope : String
  timeslot_ids : List String
  reason : String
  deriving DecidableEq

/-- `LockedAssignment` (pydantic model). -/
structure LockedAssignment where
  section_id : String
  fixed_timeslot_set : Option (List String)
  fixed_room : Option String
  deriving DecidableEq

/-- `SoftLock` (pydantic model); `weight` is a Python float, embedded as `ℚ`. -/
structure SoftLock where
  section_id : String
  preferred_timeslot_set : Option (List String)
  preferred_room : Option String
  weight : ℚ
  deriving DecidableEq

/-- `SchedulingInput` (pydantic model). -/
structure SchedulingInput where
  sections : List Section
  instructors : List Instructor
  rooms : List Room
  timeslots : List Timeslot
  meeting_patterns : List MeetingPattern
  crosslist_groups : List CrossListGroup
  no_overlap_groups : List NoOverlapGroup
  blocked_times : List BlockedTime
  locked_assignments : List LockedAssignment
  soft_locks : List SoftLock
  deriving DecidableEq

/-- `ValidationError` (pydantic model). -/
structure ValidationError where
  code : String
  message : String
  deriving DecidableEq

/-- A generated assignment option, the tuple
`(pattern_id, timeslot_set, room_id, room_waste)` of `_build_options`. -/
structure ProgOption where
  pattern_id : String
  timeslot_set : List String
  room_id : String
  room_waste : Int
  deriving DecidableEq

/-- `ROOM_WASTE_WEIGHT = 1`. -/
def ROOM_WASTE_WEIGHT : ℤ := 1

/-- `PREF_DAY_WEIGHT = 10`. -/
def PREF_DAY_WEIGHT : ℤ := 10

/-- `PREF_PATTERN_WEIGHT = 5`. -/
def PREF_PATTERN_WEIGHT : ℤ := 5

/-- `ADJUNCT_DAY_EXCESS_WEIGHT = 15`. -/
def ADJUNCT_DAY_EXCESS_WEIGHT : ℤ := 15

/-- `SOFT_LOCK_BASE_WEIGHT = 1`, used in float context with the soft-lock weight. -/
def SOFT_LOCK_BASE_WEIGHT : ℚ := 1

/-- `_timeslot_days`: lookup from timeslot id to day (dict comprehension). -/
def timeslotDayLookup (timeslots : List Timeslot) (slotId : String) : Option String :=
  lastLookup (timeslots.map (fun t => (t.id, t.day))) slotId

/-- `_has_required_features`. -/
def hasRequiredFeatures (room : Room) (required : List String) : Bool :=
  required.all (room.features.contains ·)

/-- `_build_crosslist_totals` followed by `.get(gid, 0)`: the summed
`expected_enrollment` of the sections whose (truthy) `crosslist_group_id`
equals `gid`.  The totals dict only ever holds truthy keys, so `""` maps
to the default `0`. -/
def crosslistTotal (sections : List Section) (gid : String) : Int :=
  if gid = "" then 0
  else ((sections.filter (fun s => s.crosslist_group_id = some gid)).map
    (fun s => s.expected_enrollment)).sum

/-- `max((room.capacity for room in rooms), default=0)`. -/
def maxRoomCapacity (rooms : List Room) : Int :=
  match rooms.map (fun r => r.capacity) with
  | [] => 0
  | c :: cs => cs.foldl max c

/-- The message of a `crosslist_capacity` validation error. -/
def crosslistCapacityMessage (gid : String) (total maxCap : Int) : String :=
  "Cross-list group " ++ gid ++ " requires capacity " ++ toString total ++
    ", but max room is " ++ toString maxCap ++ "."

/-- `_validate_crosslist_capacity`. -/
def validateCrosslistCapacity (crosslists : List CrossListGroup)
    (sections : List Section) (rooms : List Room) : List ValidationError :=
  crosslists.filterMap (fun group =>
    let total := crosslistTotal sections group.id
    let maxCap := maxRoomCapacity rooms
    if maxCap < total then
      some ⟨"crosslist_capacity", crosslistCapacityMessage group.id total maxCap⟩
    else none)

/-- The five `ignore_*` flags of `_build_options`. -/
structure BuildFlags where
  ignore_blocked_times : Bool
  ignore_locks : Bool
  ignore_room_capacity : Bool
  ignore_room_features : Bool
  ignore_crosslist_capacity : Bool
  deriving DecidableEq

/-- All flags false: the default arguments used by `_solve_schedule` and by
`_check_feasible` with an empty relax set. -/
def noFlags : BuildFlags := ⟨false, false, false, false, false⟩

/-- `locked_by_section` dict of `_build_options` (empty if `ignore_locks`). -/
def lockedBySection (input : SchedulingInput) (flags : BuildFlags)
    (sid : String) : Option LockedAssignment :=
  if flags.ignore_locks then none
  else lastLookup (input.locked_assignments.map (fun l => (l.section_id, l))) sid

/-- `blocked_times_global` of `_build_options`. -/
def blockedGlobal (input : SchedulingInput) (flags : BuildFlags) : List String :=
  (input.blocked_times.filter
    (fun b => b.scope = "global" && !flags.ignore_blocked_times)).flatMap
    (fun b => b.timeslot_ids)

/-- The `available_rooms` list computed for one section by `_build_options`:
capacity and feature filters, then the cross-list aggregate-capacity filter. -/
def availableRooms (input : SchedulingInput) (flags : BuildFlags)
    (s : Section) : List Room :=
  let base := input.rooms.filter (fun room =>
    (flags.ignore_room_capacity || s.expected_enrollment ≤ room.capacity) &&
    (flags.ignore_room_features || hasRequiredFeatures room s.room_requirements))
  if truthyOptStr s.crosslist_group_id
      && !flags.ignore_crosslist_capacity && !flags.ignore_room_capacity then
    base.filter (fun room =>
      crosslistTotal input.sections (s.crosslist_group_id.getD "") ≤ room.capacity)
  else base

/-- The pattern dict `{pattern.id: pattern}` of `_build_options`. -/
def patternById (input : SchedulingInput) (pid : String) : Option MeetingPattern :=
  lastLookup (input.meeting_patterns.map (fun p => (p.id, p))) pid

/-- Whether the lock (if any) pins a different timeslot set (`continue` case). -/
def lockSkipsTimeslotSet (lock : Option LockedAssignment) (ts : List String) : Bool :=
  match lock with
  | some l => truthyOptList l.fixed_timeslot_set && !listSetEq (l.fixed_timeslot_set.getD []) ts
  | none => false

/-- Whether the lock (if any) pins a different room (`continue` case). -/
def lockSkipsRoom (lock : Option LockedAssignment) (rid : String) : Bool :=
  match lock with
  | some l => truthyOptStr l.fixed_room && rid ≠ l.fixed_room.getD ""
  | none => false

/-- The `section_options` list generated for one section by `_build_options`. -/
def sectionOptions (input : SchedulingInput) (flags : BuildFlags)
    (s : Section) : List ProgOption :=
  let lock := lockedBySection input flags s.id
  let rooms := availableRooms input flags s
  let blocked := blockedGlobal input flags
  s.allowed_meeting_patterns.flatMap (fun pid =>
    match patternById input pid with
    | none => []
    | some pattern =>
      pattern.compatible_timeslot_sets.flatMap (fun ts =>
        if ts.any (blocked.contains ·) then []
        else if lockSkipsTimeslotSet lock ts then []
        else rooms.filterMap (fun room =>
          if lockSkipsRoom lock room.id then none
          else some ⟨pid, ts, room.id, room.capacity - s.expected_enrollment⟩)))

/-- The `no_feasible_options` error for one section. -/
def noFeasibleError (s : Section) : ValidationError :=
  ⟨"no_feasible_options", "Section " ++ s.id ++ " has no feasible assignment options."⟩

/-- The `(section_id, options)` pairs inserted into `options_by_section`, in
section order (the dict view is obtained with `lastLookup` / `dictItems`). -/
def buildOptionsList (input : SchedulingInput) (flags : BuildFlags) :
    List (String × List ProgOption) :=
  input.sections.map (fun s => (s.id, sectionOptions input flags s))

/-- The error list returned by `_build_options`. -/
def buildOptionsErrors (input : SchedulingInput) (flags : BuildFlags) :
    List ValidationError :=
  input.sections.filterMap (fun s =>
    if (sectionOptions input flags s).isEmpty then some (noFeasibleError s) else none)

/-- `options_by_section.get(sid, [])`. -/
def optionsFor (input : SchedulingInput) (flags : BuildFlags) (sid : String) :
    List ProgOption :=
  (lastLookup (buildOptionsList input flags) sid).getD []

/-- The items of `options_by_section` as iterated when building the model:
first-insertion key order, last value for duplicate section ids. -/
def optionEntries (input : SchedulingInput) (flags : BuildFlags) :
    List (String × List ProgOption) :=
  dictItems (buildOptionsList input flags)

/-- `sections_by_id`. -/
def sectionsById (input : SchedulingInput) (sid : String) : Option Section :=
  lastLookup (input.sections.map (fun s => (s.id, s))) sid

/-- `instructors_by_id`. -/
def instructorsById (input : SchedulingInput) (iid : String) : Option Instructor :=
  lastLookup (input.instructors.map (fun i => (i.id, i))) iid

/-- `soft_lock_by_section`. -/
def softLockBySection (input : SchedulingInput) (sid : String) : Option SoftLock :=
  lastLookup (input.soft_locks.map (fun l => (l.section_id, l))) sid

/-- `crosslist_roomshare`: ids of the cross-list groups with `require_same_room`. -/
def crosslistRoomshare (input : SchedulingInput) : List String :=
  (input.crosslist_groups.filter (fun g => g.require_same_room)).map (fun g => g.id)

/-- The roomshare key assigned by `_solve_schedule` to one section object. -/
def sectionRoomshareRaw (input : SchedulingInput) (s : Section) : String :=
  match s.crosslist_group_id with
  | some g => if (crosslistRoomshare input).contains g then g else "sec:" ++ s.id
  | none => "sec:" ++ s.id

/-- `section_to_roomshare_group[sid]` (dict keyed by section id, last wins). -/
def roomshareKey (input : SchedulingInput) (sid : String) : String :=
  (lastLookup (input.sections.map (fun s => (s.id, sectionRoomshareRaw input s))) sid).getD
    ("sec:" ++ sid)

/-- The `((section_id, idx), option)` items of `option_vars` / `option_data`,
in their shared insertion order. -/
def optionItems (entries : List (String × List ProgOption)) :
    List ((String × Nat) × ProgOption) :=
  entries.flatMap (fun p => p.2.enum.map (fun q => ((p.1, q.1), q.2)))

/-- Whether an option occupies room `rid` at timeslot `tid`. -/
def usesAt (o : ProgOption) (rid tid : String) : Bool :=
  o.room_id = rid && o.timeslot_set.contains tid

/-- The options occupying `(rid, tid)`, with their variable keys. -/
def bucketOpts (entries : List (String × List ProgOption)) (rid tid : String) :
    List ((String × Nat) × ProgOption) :=
  (optionItems entries).filter (fun q => usesAt q.2 rid tid)

/-- The distinct roomshare keys of the options occupying `(rid, tid)`
(the keys of `vars_by_group`). -/
def bucketKeys (input : SchedulingInput) (entries : List (String × List ProgOption))
    (rid tid : String) : List String :=
  dedupKeys ((bucketOpts entries rid tid).map (fun q => roomshareKey input q.1.1))

/-- The sum of the boolean variables of one section's options
(`sum(section_vars)`). -/
def sectionVarSum (x : String × Nat → Bool) (sid : String)
    (opts : List ProgOption) : ℤ :=
  (opts.enum.map (fun q => b2z (x (sid, q.1)))).sum

/-- `model.Add(sum(section_vars) == 1)` for every section entry. -/
def checkExactlyOne (entries : List (String × List ProgOption))
    (x : String × Nat → Bool) : Bool :=
  entries.all (fun p => sectionVarSum x p.1 p.2 = 1)

/-- The room block of the optimization model of `_solve_schedule`:
per `(room, timeslot)`, an indicator `u` per roomshare key dominating each of
its options' variables, and at most one indicator set. -/
def checkOptRoom (input : SchedulingInput) (entries : List (String × List ProgOption))
    (x : String × Nat → Bool) (u : String × String × String → Bool) : Bool :=
  input.rooms.all (fun room => input.timeslots.all (fun ts =>
    (bucketOpts entries room.id ts.id).all (fun q =>
      b2z (x q.1) ≤ b2z (u (room.id, ts.id, roomshareKey input q.1.1))) &&
    ((bucketKeys input entries room.id ts.id).map
      (fun k => b2z (u (room.id, ts.id, k)))).sum ≤ 1))

/-- The room block of the `_check_feasible` model: per `(room, timeslot)`,
the plain constraint `sum(vars_for_slot) <= 1` with no roomshare sharing. -/
def checkPlainRoom (input : SchedulingInput) (entries : List (String × List ProgOption))
    (x : String × Nat → Bool) : Bool :=
  input.rooms.all (fun room => input.timeslots.all (fun ts =>
    ((bucketOpts entries room.id ts.id).map (fun q => b2z (x q.1))).sum ≤ 1))

/-- Instructor non-overlap: per `(instructor, timeslot)`,
`sum(vars_for_slot) <= 1` over the options of that instructor's sections. -/
def checkInstructor (input : SchedulingInput) (entries : List (String × List ProgOption))
    (x : String × Nat → Bool) : Bool :=
  input.instructors.all (fun inst => input.timeslots.all (fun ts =>
    (((optionItems entries).filter (fun q =>
        (match sectionsById input q.1.1 with
         | some s => s.instructor_id = inst.id
         | none => false) && q.2.timeslot_set.contains ts.id)).map
      (fun q => b2z (x q.1))).sum ≤ 1))

/-- No-overlap groups: per `(group, timeslot)`, `sum(vars_for_slot) <= 1` over
the options of the group's member sections touching the timeslot. -/
def checkNoOverlap (input : SchedulingInput)
    (x : String × Nat → Bool) : Bool :=
  input.no_overlap_groups.all (fun g => input.timeslots.all (fun ts =>
    ((g.member_section_ids.flatMap (fun sid =>
      (optionsFor input noFlags sid).enum.filterMap (fun q =>
        if q.2.timeslot_set.contains ts.id then some (b2z (x (sid, q.1))) else none))).sum ≤ 1)))

/-- The list of forbidden option pairs generated by the cross-list time/room
equality loops: for each group, each ordered member pair and each option pair,
the pair is forbidden when the timeslot tuples differ, or when
`require_same_room` and the rooms differ. -/
def crosslistPairList (input : SchedulingInput) :
    List ((String × Nat) × (String × Nat)) :=
  input.crosslist_groups.flatMap (fun g =>
    (pairsOf g.member_section_ids).flatMap (fun pr =>
      (optionsFor input noFlags pr.1).enum.flatMap (fun ia =>
        (optionsFor input noFlags pr.2).enum.filterMap (fun ib =>
          if ia.2.timeslot_set ≠ ib.2.timeslot_set then
            some ((pr.1, ia.1), (pr.2, ib.1))
          else if g.require_same_room && ia.2.room_id ≠ ib.2.room_id then
            some ((pr.1, ia.1), (pr.2, ib.1))
          else none))))

/-- Cross-list time/room equality: `x_a + x_b <= 1` for every forbidden pair. -/
def checkCrosslistPairs (input : SchedulingInput) (x : String × Nat → Bool) : Bool :=
  (crosslistPairList input).all (fun pr => b2z (x pr.1) + b2z (x pr.2) ≤ 1)

/-- The full hard-constraint model of `_solve_schedule` (optimization run),
over option variables `x` and roomshare indicators `u`. -/
def checkOptHard (input : SchedulingInput) (x : String × Nat → Bool)
    (u : String × String × String → Bool) : Bool :=
  let entries := optionEntries input noFlags
  checkExactlyOne entries x && checkOptRoom input entries x u &&
    checkInstructor input entries x && checkNoOverlap input x &&
    checkCrosslistPairs input x

/-- The hard-constraint model built by `_check_feasible` with an empty relax
set, over option variables `x` only. -/
def checkDiagHard (input : SchedulingInput) (x : String × Nat → Bool) : Bool :=
  let entries := optionEntries input noFlags
  checkExactlyOne entries x && checkPlainRoom input entries x &&
    checkInstructor input entries x && checkNoOverlap input x &&
    checkCrosslistPairs input x

/-- Satisfiability of the optimization model's hard constraints. -/
def OptHardSat (input : SchedulingInput) : Prop :=
  ∃ x u, checkOptHard input x u = true

/-- `_check_feasible(input, relax=∅)` modulo the external solver call:
pre-validation passes, option generation reports no error, and the
constructed hard-constraint model is satisfiable. -/
def CheckFeasibleModel (input : SchedulingInput) : Prop :=
  validateCrosslistCapacity input.crosslist_groups input.sections input.rooms = [] ∧
  buildOptionsErrors input noFlags = [] ∧
  ∃ x, checkDiagHard input x = true

/-- `unique_days`: the distinct day labels of the input timeslots (the source
sorts them; order is irrelevant to every use — membership, length, sums). -/
def uniqueDays (input : SchedulingInput) : List String :=
  dedupKeys (input.timeslots.map (fun t => t.day))

/-- Whether the first loop of the objective builder creates day/excess
variables for an instructor: `rank_type == "Adjunct"` and truthy
`max_teaching_days`. -/
def adjunctQualifies (inst : Instructor) : Bool :=
  inst.rank_type = "Adjunct" && truthyOptInt inst.preferences.max_teaching_days

/-- The instructors for which adjunct day/excess variables and the
`excess * ADJUNCT_DAY_EXCESS_WEIGHT` objective term are created. -/
def adjunctInstructors (input : SchedulingInput) : List Instructor :=
  input.instructors.filter adjunctQualifies

/-- `days = {timeslot_day[slot_id] for slot_id in timeslot_set}` (the source
raises on an unknown slot id; the embedding drops such ids, and theorems that
depend on this carry the corresponding well-formedness hypothesis). -/
def optDays (input : SchedulingInput) (o : ProgOption) : List String :=
  dedupKeys (o.timeslot_set.filterMap (timeslotDayLookup input.timeslots))

/-- The instructor consulted for the penalties of one section's options:
`instructors_by_id.get(section.instructor_id)`. -/
def instructorForSection (input : SchedulingInput) (sid : String) : Option Instructor :=
  (sectionsById input sid).bind (fun s => instructorsById input s.instructor_id)

/-- `preferred_days` of that instructor, `[]` when the lookup misses. -/
def preferredDaysFor (inst : Option Instructor) : List String :=
  match inst with
  | some i => i.preferences.preferred_days
  | none => []

/-- `preferred_patterns` of that instructor, `[]` when the lookup misses. -/
def preferredPatternsFor (inst : Option Instructor) : List String :=
  match inst with
  | some i => i.preferences.preferred_patterns
  | none => []

/-- `pref_day_penalty`: `0` if the option's day set meets the preferred days,
else `PREF_DAY_WEIGHT`. -/
def prefDayPenalty (input : SchedulingInput) (inst : Option Instructor)
    (o : ProgOption) : ℤ :=
  if (optDays input o).any ((preferredDaysFor inst).contains ·) then 0
  else PREF_DAY_WEIGHT

/-- `pref_pattern_penalty`: `0` if the pattern is preferred, else
`PREF_PATTERN_WEIGHT`. -/
def prefPatternPenalty (inst : Option Instructor) (o : ProgOption) : ℤ :=
  if (preferredPatternsFor inst).contains o.pattern_id then 0
  else PREF_PATTERN_WEIGHT

/-- `total_penalty`, the base objective coefficient of one option:
room waste, day preference and pattern preference. -/
def basePenalty (input : SchedulingInput) (sid : String) (o : ProgOption) : ℤ :=
  let inst := instructorForSection input sid
  o.room_waste * ROOM_WASTE_WEIGHT + prefDayPenalty input inst o +
    prefPatternPenalty inst o

/-- The number of soft-lock mismatches of an option: a truthy
`preferred_timeslot_set` differing as a set, plus a truthy `preferred_room`
differing. -/
def softMismatchCount (lock : SoftLock) (o : ProgOption) : ℕ :=
  (if truthyOptList lock.preferred_timeslot_set &&
      !listSetEq o.timeslot_set (lock.preferred_timeslot_set.getD []) then 1 else 0) +
  (if truthyOptStr lock.preferred_room &&
      o.room_id ≠ lock.preferred_room.getD "" then 1 else 0)

/-- `soft_penalty`, the float accumulated for one option before truncation. -/
def softMismatchPenalty (lock : SoftLock) (o : ProgOption) : ℚ :=
  (if truthyOptList lock.preferred_timeslot_set &&
      !listSetEq o.timeslot_set (lock.preferred_timeslot_set.getD []) then
    lock.weight * SOFT_LOCK_BASE_WEIGHT else 0) +
  (if truthyOptStr lock.preferred_room &&
      o.room_id ≠ lock.preferred_room.getD "" then
    lock.weight * SOFT_LOCK_BASE_WEIGHT else 0)

/-- The soft-lock objective term appended for one option: `none` when the
section has no soft lock or the accumulated penalty is not strictly positive,
otherwise the coefficient `int(soft_penalty)`. -/
def softLockTerm (input : SchedulingInput) (sid : String) (o : ProgOption) :
    Option ℤ :=
  match softLockBySection input sid with
  | none => none
  | some lock =>
    let p := softMismatchPenalty lock o
    if 0 < p then some (pyInt p) else none

/-- The soft-lock contribution to an option's objective coefficient
(`0` when no term is appended). -/
def softContribution (input : SchedulingInput) (sid : String) (o : ProgOption) : ℤ :=
  (softLockTerm input sid o).getD 0

/-- The adjunct part of the objective:
`excess * ADJUNCT_DAY_EXCESS_WEIGHT` per qualifying instructor. -/
def objectiveAdjunct (input : SchedulingInput) (e : String → ℤ) : ℤ :=
  ((adjunctInstructors input).map
    (fun i => e i.id * ADJUNCT_DAY_EXCESS_WEIGHT)).sum

/-- The minimized objective, evaluated at a valuation of the option variables
`x` and the adjunct excess variables `e`: adjunct terms, base per-option terms
`var * total_penalty`, and soft-lock terms `var * int(soft_penalty)`. -/
def objective (input : SchedulingInput) (entries : List (String × List ProgOption))
    (x : String × Nat → Bool) (e : String → ℤ) : ℤ :=
  objectiveAdjunct input e +
  ((optionItems entries).map
    (fun q => b2z (x q.1) * basePenalty input q.1.1 q.2)).sum +
  ((optionItems entries).map
    (fun q => b2z (x q.1) * softContribution input q.1.1 q.2)).sum

/-- `sum(day_vars)` for one instructor. -/
def dayVarSum (input : SchedulingInput) (d : String × String → Bool)
    (iid : String) : ℤ :=
  ((uniqueDays input).map (fun day => b2z (d (iid, day)))).sum

/-- The bound constraints on the adjunct variables:
`excess ≥ sum(day_vars) - max_days`, `excess ≥ 0` and the
`NewIntVar(0, len(unique_days))` domain, per qualifying instructor. -/
def checkAdjunctBounds (input : SchedulingInput) (d : String × String → Bool)
    (e : String → ℤ) : Bool :=
  (adjunctInstructors input).all (fun inst =>
    0 ≤ e inst.id && e inst.id ≤ (uniqueDays input).length &&
    dayVarSum input d inst.id - inst.preferences.max_teaching_days.getD 0 ≤ e inst.id)

/-- Whether `instructor_day_vars.get((iid, day))` finds a variable. -/
def dayVarExists (input : SchedulingInput) (iid day : String) : Bool :=
  (adjunctInstructors input).any (fun i => i.id = iid) &&
    (uniqueDays input).contains day

/-- The linking constraints `day_var ≥ var`: for each option whose section's
instructor resolves to an `"Adjunct"`, for each day of the option whose day
variable exists. -/
def checkAdjunctLink (input : SchedulingInput)
    (entries : List (String × List ProgOption)) (x : String × Nat → Bool)
    (d : String × String → Bool) : Bool :=
  (optionItems entries).all (fun q =>
    match instructorForSection input q.1.1 with
    | some inst =>
      !(inst.rank_type = "Adjunct" : Bool) ||
        (optDays input q.2).all (fun day =>
          !(dayVarExists input inst.id day) || (b2z (x q.1) ≤ b2z (d (inst.id, day))))
    | none => true)

/-- The complete optimization model of `_solve_schedule`: hard constraints
plus the adjunct bound and linking constraints. -/
def checkFullModel (input : SchedulingInput) (x : String × Nat → Bool)
    (u : String × String × String → Bool) (d : String × String → Bool)
    (e : String → ℤ) : Bool :=
  checkOptHard input x u && checkAdjunctBounds input d e &&
    checkAdjunctLink input (optionEntries input noFlags) x d

/-- The option chosen for one section entry: the first index whose variable is
assigned 1 (`break` in the source). -/
def chosenOption (x : String × Nat → Bool) (p : String × List ProgOption) :
    Option ProgOption :=
  (p.2.enum.find? (fun q => x (p.1, q.1))).map (fun q => q.2)

/-- `penalty_breakdown["room_waste"]`. -/
def penaltyRoomWaste (entries : List (String × List ProgOption))
    (x : String × Nat → Bool) : ℚ :=
  (entries.map (fun p =>
    match chosenOption x p with
    | some o => ((o.room_waste * ROOM_WASTE_WEIGHT : ℤ) : ℚ)
    | none => 0)).sum

/-- `penalty_breakdown["instructor_day_preference"]`. -/
def penaltyDayPref (input : SchedulingInput)
    (entries : List (String × List ProgOption)) (x : String × Nat → Bool) : ℚ :=
  (entries.map (fun p =>
    match chosenOption x p with
    | some o => ((prefDayPenalty input (instructorForSection input p.1) o : ℤ) : ℚ)
    | none => 0)).sum

/-- `penalty_breakdown["instructor_pattern_preference"]`. -/
def penaltyPatternPref (input : SchedulingInput)
    (entries : List (String × List ProgOption)) (x : String × Nat → Bool) : ℚ :=
  (entries.map (fun p =>
    match chosenOption x p with
    | some o => ((prefPatternPenalty (instructorForSection input p.1) o : ℤ) : ℚ)
    | none => 0)).sum

/-- `penalty_breakdown["soft_lock_time"]`: the untruncated float
`weight * SOFT_LOCK_BASE_WEIGHT` per chosen option with a mismatching truthy
`preferred_timeslot_set`. -/
def penaltySoftTime (input : SchedulingInput)
    (entries : List (String × List ProgOption)) (x : String × Nat → Bool) : ℚ :=
  (entries.map (fun p =>
    match chosenOption x p, softLockBySection input p.1 with
    | some o, some lock =>
      if truthyOptList lock.preferred_timeslot_set &&
          !listSetEq o.timeslot_set (lock.preferred_timeslot_set.getD []) then
        lock.weight * SOFT_LOCK_BASE_WEIGHT else 0
    | _, _ => 0)).sum

/-- `penalty_breakdown["soft_lock_room"]`. -/
def penaltySoftRoom (input : SchedulingInput)
    (entries : List (String × List ProgOption)) (x : String × Nat → Bool) : ℚ :=
  (entries.map (fun p =>
    match chosenOption x p, softLockBySection input p.1 with
    | some o, some lock =>
      if truthyOptStr lock.preferred_room &&
          o.room_id ≠ lock.preferred_room.getD "" then
        lock.weight * SOFT_LOCK_BASE_WEIGHT else 0
    | _, _ => 0)).sum

/-- `penalty_breakdown["adjunct_day_excess"]`: read from the excess variables
of `adjunct_day_excess_vars` (dict keyed by instructor id), added only when
the solver value is nonzero. -/
def penaltyAdjunct (input : SchedulingInput) (e : String → ℤ) : ℚ :=
  ((dedupKeys ((adjunctInstructors input).map (fun i => i.id))).map
    (fun iid => if e iid = 0 then 0 else ((e iid * ADJUNCT_DAY_EXCESS_WEIGHT : ℤ) : ℚ))).sum

/-- The sum of the six `penalty_breakdown` values. -/
def breakdownSum (input : SchedulingInput)
    (entries : List (String × List ProgOption)) (x : String × Nat → Bool)
    (e : String → ℤ) : ℚ :=
  penaltyRoomWaste entries x + penaltyDayPref input entries x +
    penaltyPatternPref input entries x + penaltyAdjunct input e +
    penaltySoftTime input entries x + penaltySoftRoom input entries x

/-- `total_score = sum(penalty_breakdown.values())`. -/
def totalScore (input : SchedulingInput)
    (entries : List (String × List ProgOption)) (x : String × Nat → Bool)
    (e : String → ℤ) : ℚ :=
  breakdownSum input entries x e

/-- The pre-solver phase of `_solve_schedule`: either the combined
pre-validation and option-generation error list (returned as-is, the solver
never being constructed), or the generated options handed to the model
builder. -/
inductive SolveOutcome where
  | error : List ValidationError → SolveOutcome
  | solve : List (String × List ProgOption) → SolveOutcome
  deriving DecidableEq

/-- The errors accumulated by `_solve_schedule` before the solver phase. -/
def solveScheduleErrors (input : SchedulingInput) : List ValidationError :=
  validateCrosslistCapacity input.crosslist_groups input.sections input.rooms ++
    buildOptionsErrors input noFlags

/-- The short-circuiting pre-solver phase of `_solve_schedule`. -/
def solveScheduleEarly (input : SchedulingInput) : SolveOutcome :=
  if (solveScheduleErrors input).isEmpty then
    SolveOutcome.solve (buildOptionsList input noFlags)
  else SolveOutcome.error (solveScheduleErrors input)

/-- A section with the given id, instructor, enrollment, patterns and
cross-list group id, and neutral remaining fields. -/
def mkSection (sid iid : String) (enroll : Int) (patterns : List String)
    (gid : Option String) : Section :=
  ⟨sid, "C-" ++ sid, "100", iid, enroll, enroll, patterns, [], gid, []⟩

/-- An instructor with the given id, rank and `max_teaching_days`, and no
stated preferences. -/
def mkInstructor (iid rank : String) (maxd : Option Int) : Instructor :=
  ⟨iid, rank, [], ⟨[], [], maxd⟩⟩

/-- A room with the given id and capacity and no features. -/
def mkRoom (rid : String) (cap : Int) : Room :=
  ⟨rid, "B", cap, []⟩

/-- A timeslot with the given id and day. -/
def mkSlot (tid day : String) : Timeslot :=
  ⟨tid, day, "09:00", "10:00"⟩

/-- A meeting pattern with the given id and compatible timeslot sets. -/
def mkPattern (pid : String) (sets : List (List String)) : MeetingPattern :=
  ⟨pid, 1, [], sets⟩

/-- The group, section and room of the C5 counterexample: the group lists
`S1` as a member, but `S1` does not carry the group's id in its
`crosslist_group_id` field. -/
def c5group : CrossListGroup := ⟨"G1", ["S1"], false⟩

def c5sec : Section := mkSection "S1" "I1" 100 ["P1"] none

def c5room : Room := mkRoom "R1" 50

/-- The C2/C9 concrete soft lock: weight 3/2, both preferences set. -/
def c2lock : SoftLock := ⟨"S1", some ["T2"], some "R2", 3/2⟩

/-- An input carrying only the C2 soft lock (the soft-lock coefficient of an
option depends on nothing else). -/
def c2input : SchedulingInput := ⟨[], [], [], [], [], [], [], [], [], [c2lock]⟩

/-- An option mismatching both the preferred timeslot set and room. -/
def c2opt : ProgOption := ⟨"P1", ["T1"], "R1", 0⟩

/-- The C9 concrete soft lock: weight 1/2, only the room preference set. -/
def c9lock : SoftLock := ⟨"S1", none, some "R2", 1/2⟩

def c9input : SchedulingInput := ⟨[], [], [], [], [], [], [], [], [], [c9lock]⟩

/-- The per-option invariant stated by the spec (with the truthiness of the
lock and cross-list fields made explicit): room capacity and features fit,
no blocked slot, non-empty lock fields are honored, the aggregate cross-list
capacity filter applied, and the cached waste correct. -/
def OptionInvariant (input : SchedulingInput) (s : Section) (o : ProgOption) : Prop :=
  (∃ room ∈ input.rooms,
    o.room_id = room.id ∧
    s.expected_enrollment ≤ room.capacity ∧
    (∀ f ∈ s.room_requirements, f ∈ room.features) ∧
    o.room_waste = room.capacity - s.expected_enrollment ∧
    (∀ gid, s.crosslist_group_id = some gid → gid ≠ "" →
      crosslistTotal input.sections gid ≤ room.capacity)) ∧
  (∀ slot ∈ o.timeslot_set, slot ∉ blockedGlobal input noFlags) ∧
  (∀ lock, lockedBySection input noFlags s.id = some lock →
    (∀ fts, lock.fixed_timeslot_set = some fts → fts ≠ [] →
      listSetEq o.timeslot_set fts = true) ∧
    (∀ fr, lock.fixed_room = some fr → fr ≠ "" → o.room_id = fr))

/-- The C7 counterexample section and input: a locked assignment with
`fixed_timeslot_set = []` (set but empty, hence falsy). -/
def c7sec : Section := mkSection "S1" "I1" 10 ["P1"] none

def c7lock : LockedAssignment := ⟨"S1", some [], none⟩

def c7input : SchedulingInput :=
  ⟨[c7sec], [mkInstructor "I1" "Professor" none], [mkRoom "R1" 30],
    [mkSlot "T1" "Mon"], [mkPattern "P1" [["T1"]]], [], [], [], [c7lock], []⟩

/-- The C7 witness input: a fully truthy lock that the option honors. -/
def c7wsec : Section := mkSection "S2" "I1" 10 ["P1"] none

def c7winput : SchedulingInput :=
  ⟨[c7wsec], [], [mkRoom "R1" 30], [mkSlot "T1" "Mon"],
    [mkPattern "P1" [["T1"]]], [], [], [], [⟨"S2", some ["T1"], some "R1"⟩], []⟩

def c7wopt : ProgOption := ⟨"P1", ["T1"], "R1", 20⟩

/-- The C8 witness input: one section admitting no options (no rooms). -/
def c8wsec : Section := mkSection "S1" "I1" 10 ["P1"] none

def c8winput : SchedulingInput :=
  ⟨[c8wsec], [], [], [mkSlot "T1" "Mon"], [mkPattern "P1" [["T1"]]],
    [], [], [], [], []⟩

/-- The canonical roomshare indicator valuation induced by an option
assignment: a group key is in use at `(room, timeslot)` iff some selected
option of that key occupies it. -/
def canonicalRoomUse (input : SchedulingInput)
    (entries : List (String × List ProgOption)) (x : String × Nat → Bool) :
    String × String × String → Bool :=
  fun p => (bucketOpts entries p.1 p.2.1).any
    (fun q => x q.1 && decide (roomshareKey input q.1.1 = p.2.2))

/-- The C3 failing input: two cross-listed sections (`require_same_room`)
that must share the single large room at the single timeslot. -/
def c3secA : Section := mkSection "S1" "I1" 15 ["P1"] (some "G1")

def c3secB : Section := mkSection "S2" "I2" 15 ["P1"] (some "G1")

def c3input : SchedulingInput :=
  ⟨[c3secA, c3secB],
    [mkInstructor "I1" "Professor" none, mkInstructor "I2" "Professor" none],
    [mkRoom "R1" 40], [mkSlot "T1" "Mon"], [mkPattern "P1" [["T1"]]],
    [⟨"G1", ["S1", "S2"], true⟩], [], [], [], []⟩

/-- The single option generated for each C3 section. -/
def c3opt : ProgOption := ⟨"P1", ["T1"], "R1", 25⟩

/-- The satisfying assignment for the optimization model: both sections pick
their only option. -/
def x3 : String × Nat → Bool := fun p => p == ("S1", 0) || p == ("S2", 0)

def u3 : String × String × String → Bool := fun _ => true

/-- The C6 counterexample instructor: an adjunct with `max_teaching_days = 0`,
which is *set* in the claim's sense but falsy in Python. -/
def c6inst : Instructor := mkInstructor "I1" "Adjunct" (some 0)

def c6input : SchedulingInput := ⟨[], [c6inst], [], [], [], [], [], [], [], []⟩

def c6winput : SchedulingInput :=
  ⟨[], [mkInstructor "I2" "Adjunct" (some 1)], [], [mkSlot "T1" "Mon"],
    [], [], [], [], [], []⟩

def xw6 : String × Nat → Bool := fun _ => false

def dw6 : String × String → Bool := fun _ => false

def ew6 : String → ℤ := fun _ => 0

/-- The C10 counterexample: `S1` carries the dangling id `GX` but is listed
as a member of the real group `G1`. -/
def c10secA : Section := mkSection "S1" "I1" 10 ["P1"] (some "GX")

def c10secB : Section := mkSection "S2" "I2" 10 ["P1"] none

def c10input : SchedulingInput :=
  ⟨[c10secA, c10secB],
    [mkInstructor "I1" "Professor" none, mkInstructor "I2" "Professor" none],
    [mkRoom "R1" 30], [mkSlot "T1" "Mon", mkSlot "T2" "Tue"],
    [mkPattern "P1" [["T1"], ["T2"]]], [⟨"G1", ["S1", "S2"], false⟩],
    [], [], [], []⟩

/-- The C10 witness: a section with a dangling group id listed in no group. -/
def c10wsec : Section := mkSection "S3" "I1" 10 ["P1"] (some "GY")

def c10winput : SchedulingInput :=
  ⟨[c10wsec], [], [mkRoom "R1" 30], [mkSlot "T1" "Mon"],
    [mkPattern "P1" [["T1"]]], [], [], [], [], []⟩

/-- The per-entry contribution of one section to the assembler's penalty
breakdown: zero when no option of the section is selected, otherwise the
room-waste, day-preference, pattern-preference and (untruncated) soft-lock
penalties of the chosen option. -/
def entryPenalty (input : SchedulingInput) (x : String × Nat → Bool)
    (p : String × List ProgOption) : ℚ :=
  match chosenOption x p with
  | none => 0
  | some o =>
    ((o.room_waste * ROOM_WASTE_WEIGHT : ℤ) : ℚ) +
    ((prefDayPenalty input (instructorForSection input p.1) o : ℤ) : ℚ) +
    ((prefPatternPenalty (instructorForSection input p.1) o : ℤ) : ℚ) +
    (match softLockBySection input p.1 with
     | some lock => softMismatchPenalty lock o
     | none => 0)

/-- The base objective coefficient of the option chosen for one section
(0 when none is selected). -/
def chosenBase (input : SchedulingInput) (x : String × Nat → Bool)
    (p : String × List ProgOption) : ℤ :=
  match chosenOption x p with
  | some o => basePenalty input p.1 o
  | none => 0

/-- The soft-lock objective coefficient of the option chosen for one section
(0 when none is selected). -/
def chosenSoft (input : SchedulingInput) (x : String × Nat → Bool)
    (p : String × List ProgOption) : ℤ :=
  match chosenOption x p with
  | some o => softContribution input p.1 o
  | none => 0

/-- The C1 counterexample soft lock: fractional weight 3/2, preferring the
unavailable room `R2`. -/
def c1lock : SoftLock := ⟨"S1", none, some "R2", 3/2⟩

def c1inst : Instructor := ⟨"I1", "Professor", [], ⟨["Mon"], ["P1"], none⟩⟩

def c1sec : Section := mkSection "S1" "I1" 20 ["P1"] none

def c1input : SchedulingInput :=
  ⟨[c1sec], [c1inst], [mkRoom "R1" 20], [mkSlot "T1" "Mon"],
    [mkPattern "P1" [["T1"]]], [], [], [], [], [c1lock]⟩

def c1opt : ProgOption := ⟨"P1", ["T1"], "R1", 0⟩

def x1 : String × Nat → Bool := fun p => p == ("S1", 0)

def u1 : String × String × String → Bool := fun _ => true

def d1 : String × String → Bool := fun _ => false

def e1 : String → ℤ := fun _ => 0

/-- The C1 witness soft lock: integral weight 2. -/
def c1wlock : SoftLock := ⟨"S1", none, some "R2", 2⟩

def c1winput : SchedulingInput :=
  ⟨[c1sec], [c1inst], [mkRoom "R1" 20], [mkSlot "T1" "Mon"],
    [mkPattern "P1" [["T1"]]], [], [], [], [], [c1wlock]⟩

theorem b2z_true : b2z true = 1 := rfl

theorem b2z_false : b2z false = 0 := rfl

theorem b2z_nonneg (b : Bool) : 0 ≤ b2z b := by
  cases b
  · rw [b2z_false]
  · rw [b2z_true]; omega

theorem b2z_le_one (b : Bool) : b2z b ≤ 1 := by
  cases b
  · rw [b2z_false]; omega
  · rw [b2z_true]

theorem b2z_eq_one {b : Bool} : b2z b = 1 ↔ b = true := by
  cases b
  · rw [b2z_false]; simp
  · rw [b2z_true]; simp

theorem sum_b2z_nonneg {α : Type} (l : List α) (f : α → Bool) :
    0 ≤ (l.map (fun a => b2z (f a))).sum := by
  induction l with
  | nil => simp
  | cons a rest ih =>
    simp only [List.map_cons, List.sum_cons]
    have := b2z_nonneg (f a)
    omega

theorem sum_b2z_of_all_false {α : Type} (l : List α) (f : α → Bool)
    (h : ∀ a ∈ l, f a = false) : (l.map (fun a => b2z (f a))).sum = 0 := by
  induction l with
  | nil => simp
  | cons a rest ih =>
    simp only [List.map_cons, List.sum_cons]
    rw [h a (List.mem_cons_self a rest), b2z_false,
      ih (fun b hb => h b (List.mem_cons_of_mem a hb))]
    omega

theorem sum_b2z_eq_zero {α : Type} (l : List α) (f : α → Bool)
    (h : (l.map (fun a => b2z (f a))).sum = 0) :
    ∀ a ∈ l, f a = false := by
  induction l with
  | nil => simp
  | cons a rest ih =>
    simp only [List.map_cons, List.sum_cons] at h
    have h1 := b2z_nonneg (f a)
    have h2 := sum_b2z_nonneg rest f
    intro b hb
    rcases List.mem_cons.mp hb with rfl | hb'
    · cases hfb : f b
      · rfl
      · exfalso
        rw [hfb, b2z_true] at h
        omega
    · exact ih (by omega) b hb'

theorem sum_mul_of_sum_b2z_zero {α : Type} (l : List α) (f : α → Bool) (c : α → ℤ)
    (h : (l.map (fun a => b2z (f a))).sum = 0) :
    (l.map (fun a => b2z (f a) * c a)).sum = 0 := by
  induction l with
  | nil => simp
  | cons a rest ih =>
    simp only [List.map_cons, List.sum_cons] at h ⊢
    have h1 := b2z_nonneg (f a)
    have h2 := sum_b2z_nonneg rest f
    have ha : b2z (f a) = 0 := by omega
    rw [ha, ih (by omega)]
    ring

/-- When the boolean variables of a list sum to 1, a linear expression over
them evaluates to the coefficient of the first (and only) variable set. -/
theorem sum_mul_of_sum_b2z_one {α : Type} (l : List α) (f : α → Bool) (c : α → ℤ)
    (h : (l.map (fun a => b2z (f a))).sum = 1) :
    (l.map (fun a => b2z (f a) * c a)).sum =
      (match l.find? f with | some a => c a | none => 0) := by
  induction l with
  | nil => simp at h
  | cons a rest ih =>
    simp only [List.map_cons, List.sum_cons] at h ⊢
    cases hfa : f a with
    | true =>
      rw [hfa, b2z_true] at h
      rw [b2z_true]
      have hrest : (rest.map (fun a => b2z (f a))).sum = 0 := by omega
      rw [sum_mul_of_sum_b2z_zero rest f c hrest, List.find?_cons_of_pos _ hfa]
      ring
    | false =>
      rw [hfa, b2z_false] at h
      rw [b2z_false]
      rw [List.find?_cons_of_neg _ (by simp [hfa]), zero_mul, zero_add]
      exact ih (by omega)

theorem find?_isSome_of_sum_b2z_one {α : Type} (l : List α) (f : α → Bool)
    (h : (l.map (fun a => b2z (f a))).sum = 1) :
    (l.find? f).isSome := by
  cases hf : l.find? f with
  | some a => rfl
  | none =>
    exfalso
    have hall : ∀ a ∈ l, f a = false := by
      intro a ha
      have := List.find?_eq_none.mp hf a ha
      cases hfa : f a
      · rfl
      · exact absurd hfa this
    have := sum_b2z_of_all_false l f hall
    omega

theorem sum_map_add_q {α : Type} (l : List α) (f g : α → ℚ) :
    (l.map (fun a => f a + g a)).sum = (l.map f).sum + (l.map g).sum := by
  induction l with
  | nil => simp
  | cons a rest ih => simp only [List.map_cons, List.sum_cons, ih]; ring

theorem le_sum_b2z_of_mem {α : Type} (l : List α) (f : α → Bool) (a : α)
    (ha : a ∈ l) : b2z (f a) ≤ (l.map (fun k => b2z (f k))).sum := by
  induction l with
  | nil => simp at ha
  | cons c rest ih =>
    simp only [List.map_cons, List.sum_cons]
    rcases List.mem_cons.mp ha with rfl | ha'
    · have := sum_b2z_nonneg rest f; omega
    · have := ih ha'; have := b2z_nonneg (f c); omega

/-- Two distinct elements with their variables set force the indicator sum to 2. -/
theorem two_le_sum_b2z {α : Type} (l : List α) (f : α → Bool) (a b : α)
    (ha : a ∈ l) (hb : b ∈ l) (hab : a ≠ b)
    (hfa : f a = true) (hfb : f b = true) :
    2 ≤ (l.map (fun k => b2z (f k))).sum := by
  induction l with
  | nil => simp at ha
  | cons c rest ih =>
    simp only [List.map_cons, List.sum_cons]
    rcases List.mem_cons.mp ha with rfl | ha'
    · have hb' : b ∈ rest := by
        rcases List.mem_cons.mp hb with rfl | h'
        · exact absurd rfl hab
        · exact h'
      have h1 : b2z (f a) = 1 := by rw [hfa, b2z_true]
      have h2 := le_sum_b2z_of_mem rest f b hb'
      rw [hfb, b2z_true] at h2
      omega
    · rcases List.mem_cons.mp hb with rfl | hb'
      · have h1 : b2z (f b) = 1 := by rw [hfb, b2z_true]
        have h2 := le_sum_b2z_of_mem rest f a ha'
        rw [hfa, b2z_true] at h2
        omega
      · have := ih ha' hb'
        have := b2z_nonneg (f c)
        omega

/-- If all elements of a duplicate-free list with their variable set are equal,
the indicator sum is at most 1. -/
theorem sum_b2z_le_one {α : Type} (l : List α) (f : α → Bool) (hnd : l.Nodup)
    (h : ∀ a ∈ l, ∀ b ∈ l, f a = true → f b = true → a = b) :
    (l.map (fun k => b2z (f k))).sum ≤ 1 := by
  induction l with
  | nil => simp
  | cons c rest ih =>
    simp only [List.map_cons, List.sum_cons]
    have hnd' := List.nodup_cons.mp hnd
    cases hfc : f c with
    | false =>
      have hrest := ih hnd'.2 (fun a ha b hb hfa hfb =>
        h a (List.mem_cons_of_mem c ha) b (List.mem_cons_of_mem c hb) hfa hfb)
      rw [b2z_false]
      omega
    | true =>
      have hz : ∀ a ∈ rest, f a = false := by
        intro a ha
        cases hfa : f a with
        | false => rfl
        | true =>
          have hac : a = c :=
            h a (List.mem_cons_of_mem c ha) c (List.mem_cons_self c rest) hfa hfc
          exact absurd (hac ▸ ha) hnd'.1
      rw [b2z_true, sum_b2z_of_all_false rest f hz]
      omega

theorem dedupKeys_nodup : ∀ l : List String, (dedupKeys l).Nodup := by
  intro l
  induction l with
  | nil => simp [dedupKeys]
  | cons k rest ih =>
    simp only [dedupKeys, List.nodup_cons]
    constructor
    · intro hmem
      have := (List.mem_filter.mp hmem).2
      simp at this
    · exact List.Nodup.filter _ ih

theorem mem_dedupKeys {l : List String} {a : String} :
    a ∈ dedupKeys l ↔ a ∈ l := by
  induction l with
  | nil => simp [dedupKeys]
  | cons k rest ih =>
    simp only [dedupKeys, List.mem_cons]
    constructor
    · rintro (rfl | hmem)
      · left; rfl
      · right; exact ih.mp (List.mem_filter.mp hmem).1
    · rintro (rfl | hmem)
      · left; rfl
      · by_cases hak : a = k
        · left; exact hak
        · right
          exact List.mem_filter.mpr ⟨ih.mpr hmem, by simpa using hak⟩

theorem dedupKeys_eq_self {l : List String} (h : l.Nodup) : dedupKeys l = l := by
  induction l with
  | nil => rfl
  | cons k rest ih =>
    have h' := List.nodup_cons.mp h
    simp only [dedupKeys, ih h'.2]
    congr 1
    apply List.filter_eq_self.mpr
    intro a ha
    simp only [decide_eq_true_eq]
    intro hak
    exact h'.1 (hak ▸ ha)

theorem lastLookup_mem {α : Type} {l : List (String × α)} {k : String} {v : α}
    (h : lastLookup l k = some v) : (k, v) ∈ l := by
  induction l with
  | nil => simp [lastLookup] at h
  | cons p rest ih =>
    simp only [lastLookup] at h
    cases hr : lastLookup rest k with
    | some w =>
      rw [hr] at h
      injection h with h'
      subst h'
      exact List.mem_cons_of_mem p (ih hr)
    | none =>
      rw [hr] at h
      by_cases hpk : p.1 = k
      · rw [if_pos hpk] at h
        injection h with h'
        have hp : p = (k, v) := by
          cases p with
          | mk p1 p2 =>
            simp only at hpk h'
            rw [hpk, h']
        rw [hp]
        exact List.mem_cons_self (k, v) rest
      · rw [if_neg hpk] at h
        exact absurd h (by simp)

theorem lastLookup_eq_none {α : Type} {l : List (String × α)} {k : String}
    (h : ∀ p ∈ l, p.1 ≠ k) : lastLookup l k = none := by
  induction l with
  | nil => rfl
  | cons p rest ih =>
    simp only [lastLookup, ih (fun q hq => h q (List.mem_cons_of_mem p hq))]
    rw [if_neg (h p (List.mem_cons_self p rest))]

/-- For an id-keyed dict built from a list whose keys are duplicate-free,
the lookup of a listed element's key returns that element's value. -/
theorem lastLookup_map_of_nodup {α β : Type} (l : List α) (key : α → String)
    (val : α → β) (a : α) (ha : a ∈ l) (hnd : (l.map key).Nodup) :
    lastLookup (l.map (fun b => (key b, val b))) (key a) = some (val a) := by
  induction l with
  | nil => simp at ha
  | cons c rest ih =>
    rw [List.map_cons] at hnd
    have hnd' := List.nodup_cons.mp hnd
    rcases List.mem_cons.mp ha with rfl | ha'
    · simp only [List.map_cons, lastLookup]
      have hnone : lastLookup (rest.map (fun b => (key b, val b))) (key a) = none := by
        apply lastLookup_eq_none
        intro p hp
        obtain ⟨b, hb, rfl⟩ := List.mem_map.mp hp
        intro hkb
        exact hnd'.1 (hkb ▸ List.mem_map_of_mem key hb)
      rw [hnone]
      simp
    · simp only [List.map_cons, lastLookup]
      rw [ih ha' hnd'.2]

/-- C5, counterexample.  The claim computes each group's total over "its
members' summed expected_enrollment".  Here group `G1`'s member `S1` has
expected enrollment 100 and the best room holds 50, so the claim demands a
`crosslist_capacity` error; the code sums over the sections *carrying the
group id in their `crosslist_group_id` field* (`_build_crosslist_totals`),
finds total 0, and emits no error. -/
theorem c5_counterexample :
    validateCrosslistCapacity [c5group] [c5sec] [c5room] = [] ∧
    c5group.member_section_ids = ["S1"] ∧
    c5sec.id = "S1" ∧ c5sec.expected_enrollment = 100 ∧
    maxRoomCapacity [c5room] = 50 := by
  refine ⟨rfl, rfl, rfl, rfl, rfl⟩

/-- C5, amended: `_validate_crosslist_capacity` returns, in group iteration
order, exactly one error (with the quoted code and message) for each group
whose total — the summed `expected_enrollment` of the sections carrying the
group's id in `crosslist_group_id`, not of the group's listed members —
exceeds the maximum room capacity (0 when the room list is empty), and no
error for any other group. -/
theorem c5_validate_crosslist_capacity (crosslists : List CrossListGroup)
    (sections : List Section) (rooms : List Room) :
    validateCrosslistCapacity crosslists sections rooms =
      (crosslists.filter (fun g =>
        maxRoomCapacity rooms < crosslistTotal sections g.id)).map
        (fun g => ⟨"crosslist_capacity",
          crosslistCapacityMessage g.id (crosslistTotal sections g.id)
            (maxRoomCapacity rooms)⟩) := by
  induction crosslists with
  | nil => rfl
  | cons g rest ih =>
    simp only [validateCrosslistCapacity, List.filterMap_cons] at ih ⊢
    by_cases hg : maxRoomCapacity rooms < crosslistTotal sections g.id
    · rw [if_pos hg, List.filter_cons_of_pos (by simpa using hg), List.map_cons]
      exact congrArg _ ih
    · rw [if_neg hg, List.filter_cons_of_neg (by simpa using hg)]
      exact ih

theorem pyInt_of_nonneg {q : ℚ} (h : 0 ≤ q) : pyInt q = ⌊q⌋ :=
  if_neg (not_lt.mpr h)

theorem pyInt_nonneg {q : ℚ} (h : 0 ≤ q) : 0 ≤ pyInt q := by
  rw [pyInt_of_nonneg h]
  exact Int.floor_nonneg.mpr h

theorem pyInt_nonpos {q : ℚ} (h : q ≤ 0) : pyInt q ≤ 0 := by
  unfold pyInt
  by_cases hq : q < 0
  · rw [if_pos hq]
    exact Int.ceil_le.mpr (by exact_mod_cast h)
  · rw [if_neg hq]
    have h0 : q = 0 := le_antisymm h (not_lt.mp hq)
    rw [h0]
    simp

theorem pyInt_eq_zero_of_lt_one {q : ℚ} (h0 : 0 ≤ q) (h1 : q < 1) : pyInt q = 0 := by
  rw [pyInt_of_nonneg h0]
  rw [Int.floor_eq_zero_iff]
  rw [Set.mem_Ico]
  exact ⟨h0, h1⟩

theorem pyInt_intCast (n : ℤ) : pyInt (n : ℚ) = n := by
  unfold pyInt
  by_cases hn : (n : ℚ) < 0
  · rw [if_pos hn, Int.ceil_intCast]
  · rw [if_neg hn, Int.floor_intCast]

theorem pyInt_natCast (n : ℕ) : pyInt (n : ℚ) = n := by
  have : ((n : ℤ) : ℚ) = (n : ℚ) := by push_cast; rfl
  rw [← this, pyInt_intCast]

/-- The accumulated soft penalty is the weight times the mismatch count. -/
theorem softMismatchPenalty_eq (lock : SoftLock) (o : ProgOption) :
    softMismatchPenalty lock o = lock.weight * (softMismatchCount lock o : ℚ) := by
  unfold softMismatchPenalty softMismatchCount SOFT_LOCK_BASE_WEIGHT
  split_ifs <;> push_cast <;> ring

theorem softMismatchCount_le_two (lock : SoftLock) (o : ProgOption) :
    softMismatchCount lock o ≤ 2 := by
  unfold softMismatchCount
  split <;> split <;> omega

/-- Reducing `softLockTerm` when the section's soft lock is known. -/
theorem softLockTerm_eq (input : SchedulingInput) (sid : String) (o : ProgOption)
    (lock : SoftLock) (h : softLockBySection input sid = some lock) :
    softLockTerm input sid o =
      if 0 < softMismatchPenalty lock o then some (pyInt (softMismatchPenalty lock o))
      else none := by
  unfold softLockTerm
  rw [h]

/-- C2, amended: the soft-lock contribution to an option's objective
coefficient is the truncation toward zero of `weight × (number of mismatches)`,
applied once to the accumulated sum and clamped below at 0 — not the sum of
independently truncated per-mismatch terms. -/
theorem c2_soft_lock_coefficient (input : SchedulingInput) (sid : String)
    (o : ProgOption) (lock : SoftLock)
    (h : softLockBySection input sid = some lock) :
    softContribution input sid o =
      max 0 (pyInt (lock.weight * (softMismatchCount lock o : ℚ))) := by
  unfold softContribution
  rw [softLockTerm_eq input sid o lock h]
  by_cases hp : 0 < softMismatchPenalty lock o
  · rw [if_pos hp, Option.getD_some]
    rw [softMismatchPenalty_eq] at hp ⊢
    exact (max_eq_right (pyInt_nonneg (le_of_lt hp))).symm
  · rw [if_neg hp, Option.getD_none]
    have hle : softMismatchPenalty lock o ≤ 0 := not_lt.mp hp
    rw [softMismatchPenalty_eq] at hle
    exact (max_eq_left (pyInt_nonpos hle)).symm

/-- C2, counterexample.  The claim truncates each mismatch independently:
`trunc(3/2) + trunc(3/2) = 2`.  The code accumulates the float penalty
`3/2 + 3/2 = 3` and truncates once: coefficient 3. -/
theorem c2_counterexample :
    softLockBySection c2input "S1" = some c2lock ∧
    c2lock.weight = 3/2 ∧
    softMismatchCount c2lock c2opt = 2 ∧
    softContribution c2input "S1" c2opt = 3 ∧
    pyInt c2lock.weight * (softMismatchCount c2lock c2opt : ℤ) = 2 := by
  refine ⟨rfl, rfl, rfl, ?_, ?_⟩
  · unfold softContribution
    rw [softLockTerm_eq c2input "S1" c2opt c2lock rfl]
    have hpen : softMismatchPenalty c2lock c2opt = 3 := by
      rw [softMismatchPenalty_eq]
      rw [show softMismatchCount c2lock c2opt = 2 from rfl]
      norm_num [c2lock]
    rw [hpen, if_pos (by norm_num : (0:ℚ) < 3), Option.getD_some,
      pyInt_of_nonneg (by norm_num : (0:ℚ) ≤ 3)]
    norm_num
  · rw [show softMismatchCount c2lock c2opt = 2 from rfl]
    rw [show c2lock.weight = 3/2 from rfl,
      pyInt_of_nonneg (by norm_num : (0:ℚ) ≤ 3/2)]
    norm_num

/-- C2, witness: the amended coefficient formula evaluated at the concrete
soft lock and option. -/
theorem c2_witness :
    softLockBySection c2input "S1" = some c2lock ∧
    softContribution c2input "S1" c2opt =
      max 0 (pyInt (c2lock.weight * (softMismatchCount c2lock c2opt : ℚ))) :=
  ⟨rfl, c2_soft_lock_coefficient c2input "S1" c2opt c2lock rfl⟩

/-- C9, confirmed: a soft-lock objective term is appended only when the
accumulated penalty is strictly positive; its coefficient is never negative;
a weight ≤ 0 contributes no term at all; and a single mismatch with
0 < weight < 1 yields a term with coefficient 0. -/
theorem c9_soft_lock_nonnegative (input : SchedulingInput) (sid : String)
    (o : ProgOption) (lock : SoftLock)
    (h : softLockBySection input sid = some lock) :
    (∀ c, softLockTerm input sid o = some c → 0 ≤ c) ∧
    (lock.weight ≤ 0 → softLockTerm input sid o = none) ∧
    (0 < lock.weight → lock.weight < 1 → softMismatchCount lock o = 1 →
      softLockTerm input sid o = some 0) := by
  refine ⟨?_, ?_, ?_⟩
  · intro c hc
    rw [softLockTerm_eq input sid o lock h] at hc
    by_cases hp : 0 < softMismatchPenalty lock o
    · rw [if_pos hp] at hc
      injection hc with hc'
      rw [← hc']
      exact pyInt_nonneg (le_of_lt hp)
    · rw [if_neg hp] at hc
      exact absurd hc (by simp)
  · intro hw
    rw [softLockTerm_eq input sid o lock h]
    apply if_neg
    rw [softMismatchPenalty_eq]
    exact not_lt.mpr
      (mul_nonpos_of_nonpos_of_nonneg hw (by positivity))
  · intro hw0 hw1 hcnt
    rw [softLockTerm_eq input sid o lock h, softMismatchPenalty_eq, hcnt]
    have h1 : lock.weight * ((1 : ℕ) : ℚ) = lock.weight := by push_cast; ring
    rw [h1, if_pos hw0, pyInt_eq_zero_of_lt_one (le_of_lt hw0) hw1]

/-- C9, witness: the sign properties evaluated at the concrete soft lock and
a room-mismatching option. -/
theorem c9_witness :
    softLockBySection c9input "S1" = some c9lock ∧
    ((∀ c, softLockTerm c9input "S1" c2opt = some c → 0 ≤ c) ∧
     (c9lock.weight ≤ 0 → softLockTerm c9input "S1" c2opt = none) ∧
     (0 < c9lock.weight → c9lock.weight < 1 → softMismatchCount c9lock c2opt = 1 →
       softLockTerm c9input "S1" c2opt = some 0)) :=
  ⟨rfl, c9_soft_lock_nonnegative c9input "S1" c2opt c9lock rfl⟩

/-- Membership in the per-section room filter implies each filter condition
(or its flag being set). -/
theorem availableRooms_spec {input : SchedulingInput} {flags : BuildFlags}
    {s : Section} {room : Room} (hr : room ∈ availableRooms input flags s) :
    room ∈ input.rooms ∧
    (flags.ignore_room_capacity = true ∨ s.expected_enrollment ≤ room.capacity) ∧
    (flags.ignore_room_features = true ∨
      hasRequiredFeatures room s.room_requirements = true) ∧
    (∀ gid, s.crosslist_group_id = some gid → gid ≠ "" →
      flags.ignore_crosslist_capacity = true ∨ flags.ignore_room_capacity = true ∨
      crosslistTotal input.sections gid ≤ room.capacity) := by
  unfold availableRooms at hr
  by_cases hc : (truthyOptStr s.crosslist_group_id
      && !flags.ignore_crosslist_capacity && !flags.ignore_room_capacity) = true
  · rw [if_pos hc] at hr
    rw [List.mem_filter] at hr
    obtain ⟨hbase, hcap⟩ := hr
    rw [List.mem_filter] at hbase
    obtain ⟨hmem, hcond⟩ := hbase
    have hcond' : (flags.ignore_room_capacity = true ∨
        s.expected_enrollment ≤ room.capacity) ∧
        (flags.ignore_room_features = true ∨
          hasRequiredFeatures room s.room_requirements = true) := by
      simpa using hcond
    refine ⟨hmem, hcond'.1, hcond'.2, ?_⟩
    intro gid hgid hne
    right; right
    rw [hgid] at hcap
    simpa using hcap
  · rw [if_neg hc] at hr
    rw [List.mem_filter] at hr
    obtain ⟨hmem, hcond⟩ := hr
    have hcond' : (flags.ignore_room_capacity = true ∨
        s.expected_enrollment ≤ room.capacity) ∧
        (flags.ignore_room_features = true ∨
          hasRequiredFeatures room s.room_requirements = true) := by
      simpa using hcond
    refine ⟨hmem, hcond'.1, hcond'.2, ?_⟩
    intro gid hgid hne
    by_cases hicc : flags.ignore_crosslist_capacity = true
    · exact Or.inl hicc
    by_cases hirc : flags.ignore_room_capacity = true
    · exact Or.inr (Or.inl hirc)
    exfalso
    apply hc
    have ht : truthyOptStr s.crosslist_group_id = true := by
      rw [hgid]
      simpa [truthyOptStr] using hne
    have hicc' : flags.ignore_crosslist_capacity = false := by
      simpa using hicc
    have hirc' : flags.ignore_room_capacity = false := by
      simpa using hirc
    rw [ht, hicc', hirc']
    rfl

/-- Dissecting membership in the generated options of one section: the
pattern resolves and allows the timeslot set, no blocked or lock filter
fired, and the room comes from the filtered room list. -/
theorem sectionOptions_spec {input : SchedulingInput} {flags : BuildFlags}
    {s : Section} {o : ProgOption} (ho : o ∈ sectionOptions input flags s) :
    o.pattern_id ∈ s.allowed_meeting_patterns ∧
    (∃ pattern, patternById input o.pattern_id = some pattern ∧
      o.timeslot_set ∈ pattern.compatible_timeslot_sets) ∧
    o.timeslot_set.any ((blockedGlobal input flags).contains ·) = false ∧
    lockSkipsTimeslotSet (lockedBySection input flags s.id) o.timeslot_set = false ∧
    ∃ room ∈ availableRooms input flags s,
      o.room_id = room.id ∧
      lockSkipsRoom (lockedBySection input flags s.id) room.id = false ∧
      o.room_waste = room.capacity - s.expected_enrollment := by
  simp only [sectionOptions] at ho
  rw [List.mem_flatMap] at ho
  obtain ⟨pid, hpid, ho⟩ := ho
  cases hpat : patternById input pid with
  | none =>
    rw [hpat] at ho
    simp at ho
  | some pattern =>
    rw [hpat] at ho
    rw [List.mem_flatMap] at ho
    obtain ⟨ts, hts, ho⟩ := ho
    by_cases hb : ts.any ((blockedGlobal input flags).contains ·) = true
    · rw [if_pos hb] at ho
      simp at ho
    · rw [if_neg hb] at ho
      by_cases hl : lockSkipsTimeslotSet (lockedBySection input flags s.id) ts = true
      · rw [if_pos hl] at ho
        simp at ho
      · rw [if_neg hl] at ho
        rw [List.mem_filterMap] at ho
        obtain ⟨room, hroom, heq⟩ := ho
        by_cases hlr : lockSkipsRoom (lockedBySection input flags s.id) room.id = true
        · rw [if_pos hlr] at heq
          exact absurd heq (by simp)
        · rw [if_neg hlr] at heq
          injection heq with heq'
          subst heq'
          refine ⟨hpid, ⟨pattern, hpat, hts⟩, ?_, ?_, room, hroom, rfl, ?_, rfl⟩
          · simpa using hb
          · simpa using hl
          · simpa using hlr

theorem lockSkipsTimeslotSet_some (l : LockedAssignment) (ts : List String) :
    lockSkipsTimeslotSet (some l) ts =
      (truthyOptList l.fixed_timeslot_set &&
        !listSetEq (l.fixed_timeslot_set.getD []) ts) := rfl

theorem lockSkipsRoom_some (l : LockedAssignment) (rid : String) :
    lockSkipsRoom (some l) rid =
      (truthyOptStr l.fixed_room && rid ≠ l.fixed_room.getD "") := rfl

theorem listSetEq_symm (a b : List String) : listSetEq a b = listSetEq b a := by
  unfold listSetEq
  rw [Bool.and_comm]

/-- C7, amended: every option emitted with all relaxation flags false
satisfies the invariant, where the lock-equality clauses apply to *non-empty*
`fixed_timeslot_set` / `fixed_room` values and the cross-list clause to a
non-empty `crosslist_group_id` (Python truthiness). -/
theorem c7_option_invariants (input : SchedulingInput) (s : Section)
    (hs : s ∈ input.sections) (o : ProgOption)
    (ho : o ∈ sectionOptions input noFlags s) : OptionInvariant input s o := by
  obtain ⟨hpid, hpat, hblocked, hlockts, room, hroom, hrid, hlockroom, hwaste⟩ :=
    sectionOptions_spec ho
  obtain ⟨hmem, hcap, hfeat, hcross⟩ := availableRooms_spec hroom
  refine ⟨⟨room, hmem, hrid, ?_, ?_, hwaste, ?_⟩, ?_, ?_⟩
  · rcases hcap with h | h
    · exact absurd h (by simp [noFlags])
    · exact h
  · rcases hfeat with h | h
    · exact absurd h (by simp [noFlags])
    · intro f hf
      have := List.all_eq_true.mp h f hf
      simpa using this
  · intro gid hgid hne
    rcases hcross gid hgid hne with h | h | h
    · exact absurd h (by simp [noFlags])
    · exact absurd h (by simp [noFlags])
    · exact h
  · intro slot hslot
    rw [List.any_eq_false] at hblocked
    have h := hblocked slot hslot
    simpa using h
  · intro lock hlock
    constructor
    · intro fts hfts hne
      rw [hlock, lockSkipsTimeslotSet_some, hfts] at hlockts
      have ht : truthyOptList (some fts) = true := by
        simp [truthyOptList, hne]
      rw [ht] at hlockts
      rw [listSetEq_symm]
      simpa using hlockts
    · intro fr hfr hne
      rw [hlock, lockSkipsRoom_some, hfr] at hlockroom
      have ht : truthyOptStr (some fr) = true := by
        simp [truthyOptStr, hne]
      rw [ht] at hlockroom
      rw [hrid]
      simpa using hlockroom

/-- C7, counterexample.  Section `S1` has a locked assignment whose
`fixed_timeslot_set` is the empty list — a *set* value in the claim's sense.
The claim demands every emitted option's timeslot set equal it as a set, but
the code treats `[]` as falsy, skips the filter, and emits an option with
timeslot set `["T1"] ≠ []`. -/
theorem c7_counterexample :
    lockedBySection c7input noFlags "S1" = some c7lock ∧
    c7lock.fixed_timeslot_set = some [] ∧
    sectionOptions c7input noFlags c7sec = [⟨"P1", ["T1"], "R1", 20⟩] ∧
    listSetEq ["T1"] [] = false :=
  ⟨rfl, rfl, by decide, rfl⟩

/-- C7, witness: the amended invariant at a concrete emitted option. -/
theorem c7_witness :
    c7wsec ∈ c7winput.sections ∧
    c7wopt ∈ sectionOptions c7winput noFlags c7wsec ∧
    OptionInvariant c7winput c7wsec c7wopt :=
  ⟨by decide, by decide,
    c7_option_invariants c7winput c7wsec (by decide) c7wopt (by decide)⟩

theorem filterMap_if_eq_filter_map {α β : Type} (l : List α) (p : α → Bool)
    (f : α → β) :
    l.filterMap (fun a => if p a then some (f a) else none) =
      (l.filter p).map f := by
  induction l with
  | nil => rfl
  | cons a rest ih =>
    rw [List.filterMap_cons]
    by_cases hp : p a = true
    · rw [if_pos hp, List.filter_cons_of_pos hp, List.map_cons, ih]
    · rw [if_neg hp, List.filter_cons_of_neg (by simpa using hp), ih]

/-- C8, confirmed (for inputs with distinct section ids, as a dict keyed by
section id presumes): `_build_options` appends a `no_feasible_options` error
exactly for the sections whose generated list is empty, in section order; the
returned map has an entry (that section's own, possibly empty, list) for every
input section; and when the combined pre-validation and option errors are
non-empty, `_solve_schedule` returns an error outcome carrying exactly that
list without reaching the solver phase. -/
theorem c8_option_errors (input : SchedulingInput)
    (hnd : (input.sections.map (fun s => s.id)).Nodup) :
    buildOptionsErrors input noFlags =
      (input.sections.filter
        (fun s => (sectionOptions input noFlags s).isEmpty)).map noFeasibleError ∧
    (∀ s ∈ input.sections,
      lastLookup (buildOptionsList input noFlags) s.id =
        some (sectionOptions input noFlags s)) ∧
    (solveScheduleErrors input ≠ [] →
      solveScheduleEarly input = SolveOutcome.error (solveScheduleErrors input)) := by
  refine ⟨?_, ?_, ?_⟩
  · unfold buildOptionsErrors
    exact filterMap_if_eq_filter_map input.sections
      (fun s => (sectionOptions input noFlags s).isEmpty) noFeasibleError
  · intro s hs
    unfold buildOptionsList
    exact lastLookup_map_of_nodup input.sections (fun s => s.id)
      (fun s => sectionOptions input noFlags s) s hs hnd
  · intro h
    unfold solveScheduleEarly
    rw [if_neg (by simpa using h)]

/-- C8, witness: the characterization applied to a concrete input whose one
section has no feasible options. -/
theorem c8_witness :
    (c8winput.sections.map (fun s => s.id)).Nodup ∧
    (buildOptionsErrors c8winput noFlags =
      (c8winput.sections.filter
        (fun s => (sectionOptions c8winput noFlags s).isEmpty)).map noFeasibleError ∧
    (∀ s ∈ c8winput.sections,
      lastLookup (buildOptionsList c8winput noFlags) s.id =
        some (sectionOptions c8winput noFlags s)) ∧
    (solveScheduleErrors c8winput ≠ [] →
      solveScheduleEarly c8winput = SolveOutcome.error (solveScheduleErrors c8winput))) :=
  ⟨by decide, c8_option_errors c8winput (by decide)⟩

/-- C4, confirmed: the room block of the optimization model is satisfiable
(for some valuation of the `u` indicators) exactly when, at every
`(room, timeslot)`, all selected options occupying it share one roomshare
key — so options of distinct keys can never co-occupy a room-slot, while any
number of selected options sharing a key may. -/
theorem c4_room_sharing (input : SchedulingInput) (x : String × Nat → Bool) :
    (∃ u, checkOptRoom input (optionEntries input noFlags) x u = true) ↔
    (∀ room ∈ input.rooms, ∀ ts ∈ input.timeslots,
      ∀ qa ∈ bucketOpts (optionEntries input noFlags) room.id ts.id,
      ∀ qb ∈ bucketOpts (optionEntries input noFlags) room.id ts.id,
        x qa.1 = true → x qb.1 = true →
        roomshareKey input qa.1.1 = roomshareKey input qb.1.1) := by
  constructor
  · rintro ⟨u, hu⟩ room hroom ts hts qa hqa qb hqb hxa hxb
    simp only [checkOptRoom, List.all_eq_true, Bool.and_eq_true,
      decide_eq_true_eq] at hu
    obtain ⟨hdom, hsum⟩ := hu room hroom ts hts
    by_contra hne
    have hua : u (room.id, ts.id, roomshareKey input qa.1.1) = true := by
      have h1 := hdom qa hqa
      rw [hxa, b2z_true] at h1
      exact b2z_eq_one.mp (le_antisymm (b2z_le_one _) h1)
    have hub : u (room.id, ts.id, roomshareKey input qb.1.1) = true := by
      have h1 := hdom qb hqb
      rw [hxb, b2z_true] at h1
      exact b2z_eq_one.mp (le_antisymm (b2z_le_one _) h1)
    have hka : roomshareKey input qa.1.1 ∈
        bucketKeys input (optionEntries input noFlags) room.id ts.id := by
      unfold bucketKeys
      rw [mem_dedupKeys]
      exact List.mem_map_of_mem _ hqa
    have hkb : roomshareKey input qb.1.1 ∈
        bucketKeys input (optionEntries input noFlags) room.id ts.id := by
      unfold bucketKeys
      rw [mem_dedupKeys]
      exact List.mem_map_of_mem _ hqb
    have h2 : 2 ≤ ((bucketKeys input (optionEntries input noFlags) room.id
        ts.id).map (fun k => b2z (u (room.id, ts.id, k)))).sum := by
      simpa using two_le_sum_b2z
        (bucketKeys input (optionEntries input noFlags) room.id ts.id)
        (fun k => u (room.id, ts.id, k)) _ _ hka hkb hne hua hub
    omega
  · intro h
    refine ⟨canonicalRoomUse input (optionEntries input noFlags) x, ?_⟩
    simp only [checkOptRoom, List.all_eq_true, Bool.and_eq_true,
      decide_eq_true_eq]
    intro room hroom ts hts
    constructor
    · intro q hq
      cases hxq : x q.1 with
      | false =>
        rw [b2z_false]
        exact b2z_nonneg _
      | true =>
        have hu : canonicalRoomUse input (optionEntries input noFlags) x
            (room.id, ts.id, roomshareKey input q.1.1) = true := by
          unfold canonicalRoomUse
          rw [List.any_eq_true]
          exact ⟨q, hq, by rw [hxq]; simp⟩
        rw [b2z_true, hu, b2z_true]
    · apply sum_b2z_le_one
      · exact dedupKeys_nodup _
      · intro k hk k' hk' huk huk'
        unfold canonicalRoomUse at huk huk'
        rw [List.any_eq_true] at huk huk'
        obtain ⟨q, hq, hxq⟩ := huk
        obtain ⟨q', hq', hxq'⟩ := huk'
        rw [Bool.and_eq_true, decide_eq_true_eq] at hxq hxq'
        have hk2 : roomshareKey input q.1.1 = k := by simpa using hxq.2
        have hk2' : roomshareKey input q'.1.1 = k' := by simpa using hxq'.2
        have hqq := h room hroom ts hts q (by simpa using hq) q' (by simpa using hq')
          hxq.1 hxq'.1
        rw [← hk2, ← hk2', hqq]

/-- C3, divergence at the failing input: pre-validation and option generation
succeed and the optimization model's hard constraints are satisfiable (the
roomshare indicators let the same-room cross-list share `(R1, T1)`), yet the
hard-constraint model built by `_check_feasible` — whose room block is the
plain `sum(vars) <= 1` with no roomshare keys — is unsatisfiable, so the
claimed equivalence between the two models fails and the diagnoser wrongly
reports this feasible input as infeasible. -/
theorem c3_code_divergence :
    (validateCrosslistCapacity c3input.crosslist_groups c3input.sections
        c3input.rooms = [] ∧
      buildOptionsErrors c3input noFlags = [] ∧
      checkOptHard c3input x3 u3 = true) ∧
    ¬ CheckFeasibleModel c3input := by
  constructor
  · exact ⟨by decide, by decide, by decide⟩
  · rintro ⟨-, -, x, hx⟩
    have hent : optionEntries c3input noFlags =
        [("S1", [c3opt]), ("S2", [c3opt])] := by decide
    simp only [checkDiagHard] at hx
    rw [hent] at hx
    simp only [Bool.and_eq_true] at hx
    obtain ⟨⟨⟨⟨h1, h2⟩, -⟩, -⟩, -⟩ := hx
    simp only [checkExactlyOne, List.all_cons, List.all_nil, Bool.and_eq_true,
      decide_eq_true_eq, and_true] at h1
    have hxa : b2z (x ("S1", 0)) = 1 := by
      have h := h1.1
      unfold sectionVarSum at h
      rw [show ([c3opt].enum) = [(0, c3opt)] from rfl] at h
      simpa using h
    have hxb : b2z (x ("S2", 0)) = 1 := by
      have h := h1.2
      unfold sectionVarSum at h
      rw [show ([c3opt].enum) = [(0, c3opt)] from rfl] at h
      simpa using h
    have hbucket : bucketOpts [("S1", [c3opt]), ("S2", [c3opt])] "R1" "T1" =
        [(("S1", 0), c3opt), (("S2", 0), c3opt)] := by decide
    unfold checkPlainRoom at h2
    rw [show c3input.rooms = [mkRoom "R1" 40] from rfl,
      show c3input.timeslots = [mkSlot "T1" "Mon"] from rfl] at h2
    simp only [List.all_cons, List.all_nil, Bool.and_eq_true,
      decide_eq_true_eq, and_true, mkRoom, mkSlot] at h2
    rw [hbucket] at h2
    simp only [List.map_cons, List.map_nil, List.sum_cons, List.sum_nil] at h2
    omega

theorem instructorsById_mem {input : SchedulingInput} {iid : String}
    {inst : Instructor} (h : instructorsById input iid = some inst) :
    inst ∈ input.instructors ∧ inst.id = iid := by
  unfold instructorsById at h
  obtain ⟨i, hi, heq⟩ := List.mem_map.mp (lastLookup_mem h)
  have h1 : i.id = iid := congrArg Prod.fst heq
  have h2 : i = inst := congrArg Prod.snd heq
  subst h2
  exact ⟨hi, h1⟩

theorem instructorForSection_mem {input : SchedulingInput} {sid : String}
    {inst : Instructor} (h : instructorForSection input sid = some inst) :
    inst ∈ input.instructors := by
  unfold instructorForSection at h
  cases hs : sectionsById input sid with
  | none => rw [hs] at h; exact absurd h (by simp)
  | some s =>
    rw [hs] at h
    exact (instructorsById_mem h).1

theorem optDays_subset_uniqueDays {input : SchedulingInput} {o : ProgOption}
    {day : String} (h : day ∈ optDays input o) : day ∈ uniqueDays input := by
  unfold optDays at h
  rw [mem_dedupKeys, List.mem_filterMap] at h
  obtain ⟨slot, hslot, hlook⟩ := h
  unfold timeslotDayLookup at hlook
  obtain ⟨t, ht, heq⟩ := List.mem_map.mp (lastLookup_mem hlook)
  have h2 : t.day = day := congrArg Prod.snd heq
  unfold uniqueDays
  rw [mem_dedupKeys]
  exact h2 ▸ List.mem_map_of_mem _ ht

/-- The explicit (truthiness-free) form of the adjunct qualification test. -/
theorem adjunctQualifies_iff (inst : Instructor) :
    adjunctQualifies inst = true ↔
      (inst.rank_type = "Adjunct" ∧
        ∃ m : ℤ, inst.preferences.max_teaching_days = some m ∧ m ≠ 0) := by
  unfold adjunctQualifies truthyOptInt
  cases hm : inst.preferences.max_teaching_days with
  | none => simp [hm]
  | some m =>
    simp only [Bool.and_eq_true, decide_eq_true_eq]
    constructor
    · rintro ⟨h1, h2⟩
      exact ⟨h1, m, rfl, by simpa using h2⟩
    · rintro ⟨h1, m', hm', h2⟩
      injection hm' with hm''
      exact ⟨h1, by simpa [← hm''] using h2⟩

/-- C6, amended: the adjunct day-excess variables and objective term exist
exactly for the instructors with `rank_type = "Adjunct"` and a set *nonzero*
`max_teaching_days` (Python truthiness makes `max_teaching_days = 0` falsy);
for those instructors the model's constraints are exactly the claimed bounds
`0 ≤ e ≤ |days|`, `e ≥ Σ d − M` and the linking `d[i,day] ≥ x[s,j]`, and the
objective term is `e[i] × 15`; no other instructor contributes such a term. -/
theorem c6_adjunct_day_excess (input : SchedulingInput)
    (x : String × Nat → Bool) (d : String × String → Bool) (e : String → ℤ)
    (hnd : (input.instructors.map (fun i => i.id)).Nodup) :
    (∀ inst ∈ input.instructors,
      (inst ∈ adjunctInstructors input ↔
        (inst.rank_type = "Adjunct" ∧
          ∃ m : ℤ, inst.preferences.max_teaching_days = some m ∧ m ≠ 0))) ∧
    objectiveAdjunct input e =
      ((input.instructors.filter (fun i =>
        decide (i.rank_type = "Adjunct") &&
          (match i.preferences.max_teaching_days with
           | some m => decide (m ≠ 0)
           | none => false))).map
        (fun i => e i.id * ADJUNCT_DAY_EXCESS_WEIGHT)).sum ∧
    ((checkAdjunctBounds input d e &&
        checkAdjunctLink input (optionEntries input noFlags) x d) = true ↔
      ((∀ inst ∈ input.instructors, ∀ m : ℤ, inst.rank_type = "Adjunct" →
          inst.preferences.max_teaching_days = some m → m ≠ 0 →
          0 ≤ e inst.id ∧ e inst.id ≤ ((uniqueDays input).length : ℤ) ∧
          dayVarSum input d inst.id - m ≤ e inst.id) ∧
       (∀ q ∈ optionItems (optionEntries input noFlags), ∀ inst,
          instructorForSection input q.1.1 = some inst →
          inst.rank_type = "Adjunct" →
          (∃ m : ℤ, inst.preferences.max_teaching_days = some m ∧ m ≠ 0) →
          ∀ day ∈ optDays input q.2,
            b2z (x q.1) ≤ b2z (d (inst.id, day))))) := by
  refine ⟨?_, ?_, ?_⟩
  · intro inst hinst
    unfold adjunctInstructors
    rw [List.mem_filter, adjunctQualifies_iff]
    simp [hinst]
  · unfold objectiveAdjunct adjunctInstructors
    have hfeq : input.instructors.filter adjunctQualifies =
        input.instructors.filter (fun i =>
          decide (i.rank_type = "Adjunct") &&
            (match i.preferences.max_teaching_days with
             | some m => decide (m ≠ 0)
             | none => false)) := by
      apply List.filter_congr
      intro i hi
      cases hm : i.preferences.max_teaching_days with
      | none => simp [adjunctQualifies, truthyOptInt, hm]
      | some m => simp [adjunctQualifies, truthyOptInt, hm]
    rw [hfeq]
  · constructor
    · intro h
      rw [Bool.and_eq_true] at h
      obtain ⟨hb, hl⟩ := h
      constructor
      · intro inst hinst m hrank hm hm0
        have hq : inst ∈ adjunctInstructors input :=
          List.mem_filter.mpr ⟨hinst, (adjunctQualifies_iff inst).mpr ⟨hrank, m, hm, hm0⟩⟩
        unfold checkAdjunctBounds at hb
        rw [List.all_eq_true] at hb
        have hbi := hb inst hq
        simp only [Bool.and_eq_true, decide_eq_true_eq] at hbi
        obtain ⟨⟨h1, h2⟩, h3⟩ := hbi
        refine ⟨h1, h2, ?_⟩
        rw [hm] at h3
        simpa using h3
      · intro q hq inst hinst hrank hex day hday
        obtain ⟨m, hm, hm0⟩ := hex
        unfold checkAdjunctLink at hl
        rw [List.all_eq_true] at hl
        have hlq := hl q hq
        simp only [hinst] at hlq
        rw [hrank] at hlq
        simp only [decide_True, Bool.not_true, Bool.false_or] at hlq
        rw [List.all_eq_true] at hlq
        have hld := hlq day hday
        have hq' : inst ∈ adjunctInstructors input :=
          List.mem_filter.mpr ⟨instructorForSection_mem hinst,
            (adjunctQualifies_iff inst).mpr ⟨hrank, m, hm, hm0⟩⟩
        have hdv : dayVarExists input inst.id day = true := by
          unfold dayVarExists
          rw [Bool.and_eq_true]
          constructor
          · rw [List.any_eq_true]
            exact ⟨inst, hq', by simp⟩
          · simpa using optDays_subset_uniqueDays hday
        rw [hdv] at hld
        simpa using hld
    · intro h
      obtain ⟨hbounds, hlink⟩ := h
      rw [Bool.and_eq_true]
      constructor
      · unfold checkAdjunctBounds
        rw [List.all_eq_true]
        intro inst hq
        obtain ⟨hinst, hqual⟩ := List.mem_filter.mp hq
        obtain ⟨hrank, m, hm, hm0⟩ := (adjunctQualifies_iff inst).mp hqual
        obtain ⟨h1, h2, h3⟩ := hbounds inst hinst m hrank hm hm0
        simp only [Bool.and_eq_true, decide_eq_true_eq]
        refine ⟨⟨h1, h2⟩, ?_⟩
        rw [hm]
        simpa using h3
      · unfold checkAdjunctLink
        rw [List.all_eq_true]
        intro q hq
        cases hinst : instructorForSection input q.1.1 with
        | none => simp only [hinst]
        | some inst =>
          simp only [hinst]
          by_cases hrank : inst.rank_type = "Adjunct"
          · rw [hrank]
            simp only [decide_True, Bool.not_true, Bool.false_or]
            rw [List.all_eq_true]
            intro day hday
            by_cases hdv : dayVarExists input inst.id day = true
            · have hqual : adjunctQualifies inst = true := by
                unfold dayVarExists at hdv
                rw [Bool.and_eq_true] at hdv
                obtain ⟨hany, -⟩ := hdv
                rw [List.any_eq_true] at hany
                obtain ⟨i, hiadj, hid⟩ := hany
                obtain ⟨hiinst, hiq⟩ := List.mem_filter.mp hiadj
                have hid' : i.id = inst.id := by simpa using hid
                have : i = inst := List.inj_on_of_nodup_map hnd hiinst
                  (instructorForSection_mem hinst) hid'
                exact this ▸ hiq
              obtain ⟨-, m, hm, hm0⟩ := (adjunctQualifies_iff inst).mp hqual
              have hle := hlink q hq inst hinst hrank ⟨m, hm, hm0⟩ day hday
              rw [hdv]
              simpa using hle
            · have hdv' : dayVarExists input inst.id day = false := by
                simpa using hdv
              rw [hdv']
              simp
          · have hrank' : decide (inst.rank_type = "Adjunct") = false := by
              simpa using hrank
            rw [hrank']
            simp

/-- C6, counterexample.  `I1` is an adjunct whose preferences carry a set
`max_teaching_days = 0`, so the claim demands day/excess variables and an
`e × 15` objective term for it; the code's truthiness test skips it, so no
adjunct variables or term exist for any instructor of this input. -/
theorem c6_counterexample :
    c6inst ∈ c6input.instructors ∧
    c6inst.rank_type = "Adjunct" ∧
    c6inst.preferences.max_teaching_days = some 0 ∧
    adjunctInstructors c6input = [] ∧
    objectiveAdjunct c6input (fun _ => 1) = 0 :=
  ⟨by decide, rfl, rfl, by decide, by decide⟩

/-- C6, witness: the amended characterization at a one-adjunct input. -/
theorem c6_witness :
    (c6winput.instructors.map (fun i => i.id)).Nodup ∧
    ((∀ inst ∈ c6winput.instructors,
      (inst ∈ adjunctInstructors c6winput ↔
        (inst.rank_type = "Adjunct" ∧
          ∃ m : ℤ, inst.preferences.max_teaching_days = some m ∧ m ≠ 0))) ∧
    objectiveAdjunct c6winput ew6 =
      ((c6winput.instructors.filter (fun i =>
        decide (i.rank_type = "Adjunct") &&
          (match i.preferences.max_teaching_days with
           | some m => decide (m ≠ 0)
           | none => false))).map
        (fun i => ew6 i.id * ADJUNCT_DAY_EXCESS_WEIGHT)).sum ∧
    ((checkAdjunctBounds c6winput dw6 ew6 &&
        checkAdjunctLink c6winput (optionEntries c6winput noFlags) xw6 dw6) = true ↔
      ((∀ inst ∈ c6winput.instructors, ∀ m : ℤ, inst.rank_type = "Adjunct" →
          inst.preferences.max_teaching_days = some m → m ≠ 0 →
          0 ≤ ew6 inst.id ∧ ew6 inst.id ≤ ((uniqueDays c6winput).length : ℤ) ∧
          dayVarSum c6winput dw6 inst.id - m ≤ ew6 inst.id) ∧
       (∀ q ∈ optionItems (optionEntries c6winput noFlags), ∀ inst,
          instructorForSection c6winput q.1.1 = some inst →
          inst.rank_type = "Adjunct" →
          (∃ m : ℤ, inst.preferences.max_teaching_days = some m ∧ m ≠ 0) →
          ∀ day ∈ optDays c6winput q.2,
            b2z (xw6 q.1) ≤ b2z (dw6 (inst.id, day)))))) :=
  ⟨by decide, c6_adjunct_day_excess c6winput xw6 dw6 ew6 (by decide)⟩

theorem pairsOf_mem {α : Type} {l : List α} {p : α × α} (h : p ∈ pairsOf l) :
    p.1 ∈ l ∧ p.2 ∈ l := by
  induction l with
  | nil => simp [pairsOf] at h
  | cons a rest ih =>
    simp only [pairsOf, List.mem_append, List.mem_map] at h
    rcases h with ⟨b, hb, rfl⟩ | h
    · exact ⟨List.mem_cons_self a rest, List.mem_cons_of_mem a hb⟩
    · have := ih h
      exact ⟨List.mem_cons_of_mem a this.1, List.mem_cons_of_mem a this.2⟩

/-- Every pairwise cross-list constraint is generated from a group present in
`crosslist_groups`, between two of that group's listed members. -/
theorem crosslistPairList_mem {input : SchedulingInput}
    {pr : (String × Nat) × (String × Nat)} (h : pr ∈ crosslistPairList input) :
    ∃ g ∈ input.crosslist_groups,
      pr.1.1 ∈ g.member_section_ids ∧ pr.2.1 ∈ g.member_section_ids := by
  unfold crosslistPairList at h
  rw [List.mem_flatMap] at h
  obtain ⟨g, hg, h⟩ := h
  rw [List.mem_flatMap] at h
  obtain ⟨pr', hpr', h⟩ := h
  rw [List.mem_flatMap] at h
  obtain ⟨ia, hia, h⟩ := h
  rw [List.mem_filterMap] at h
  obtain ⟨ib, hib, heq⟩ := h
  have hmem := pairsOf_mem hpr'
  refine ⟨g, hg, ?_⟩
  by_cases h1 : ia.2.timeslot_set ≠ ib.2.timeslot_set
  · rw [if_pos h1] at heq
    injection heq with heq'
    rw [← heq']
    exact ⟨hmem.1, hmem.2⟩
  · rw [if_neg h1] at heq
    by_cases h2 : (g.require_same_room && decide (ia.2.room_id ≠ ib.2.room_id)) = true
    · rw [if_pos h2] at heq
      injection heq with heq'
      rw [← heq']
      exact ⟨hmem.1, hmem.2⟩
    · rw [if_neg h2] at heq
      exact absurd heq (by simp)

/-- C10, amended: for a section whose non-empty `crosslist_group_id` matches
no cross-list group, option generation still applies the aggregate-capacity
filter using the field-based total for that id; the section's roomshare key
is the unique per-section key `sec:<id>`; and, provided the section is also
listed in no group's `member_section_ids`, no pairwise cross-list constraint
mentions it (pairwise constraints arise only from listed members of groups
present in the input). -/
theorem c10_dangling_crosslist_id (input : SchedulingInput) (s : Section)
    (gid : String) (hs : s ∈ input.sections)
    (hgid : s.crosslist_group_id = some gid) (hne : gid ≠ "")
    (hnotin : ∀ g ∈ input.crosslist_groups, g.id ≠ gid) :
    (∀ o ∈ sectionOptions input noFlags s,
      ∃ room ∈ input.rooms, o.room_id = room.id ∧
        crosslistTotal input.sections gid ≤ room.capacity) ∧
    sectionRoomshareRaw input s = "sec:" ++ s.id ∧
    ((input.sections.map (fun sec => sec.id)).Nodup →
      roomshareKey input s.id = "sec:" ++ s.id) ∧
    ((∀ g ∈ input.crosslist_groups, s.id ∉ g.member_section_ids) →
      ∀ pr ∈ crosslistPairList input, pr.1.1 ≠ s.id ∧ pr.2.1 ≠ s.id) := by
  have hraw : sectionRoomshareRaw input s = "sec:" ++ s.id := by
    unfold sectionRoomshareRaw
    rw [hgid]
    have hcontains : (crosslistRoomshare input).contains gid = false := by
      by_contra hc
      have hmem : gid ∈ crosslistRoomshare input := by
        cases hcc : (crosslistRoomshare input).contains gid
        · exact absurd hcc hc
        · simpa using hcc
      unfold crosslistRoomshare at hmem
      obtain ⟨g, hg, hgeq⟩ := List.mem_map.mp hmem
      exact hnotin g (List.mem_filter.mp hg).1 hgeq
    simp only [hcontains]
    simp
  refine ⟨?_, hraw, ?_, ?_⟩
  · intro o ho
    obtain ⟨-, -, -, -, room, hroom, hrid, -, -⟩ := sectionOptions_spec ho
    obtain ⟨hmem, -, -, hcross⟩ := availableRooms_spec hroom
    rcases hcross gid hgid hne with h | h | h
    · exact absurd h (by simp [noFlags])
    · exact absurd h (by simp [noFlags])
    · exact ⟨room, hmem, hrid, h⟩
  · intro hnd
    unfold roomshareKey
    rw [lastLookup_map_of_nodup input.sections (fun sec => sec.id)
      (fun sec => sectionRoomshareRaw input sec) s hs hnd]
    rw [Option.getD_some, hraw]
  · intro hnomem pr hpr
    obtain ⟨g, hg, h1, h2⟩ := crosslistPairList_mem hpr
    constructor
    · intro heq
      exact hnomem g hg (heq ▸ h1)
    · intro heq
      exact hnomem g hg (heq ▸ h2)

/-- C10, counterexample.  `S1.crosslist_group_id = "GX"` matches no group, so
the claim says the model imposes no cross-list time/room equality on `S1`;
but `S1` is listed in `G1.member_section_ids`, and the pairwise loops —
which read member lists, not section fields — generate constraints
mentioning `S1`'s options. -/
theorem c10_counterexample :
    c10secA.crosslist_group_id = some "GX" ∧
    ("GX" ∉ c10input.crosslist_groups.map (fun g => g.id)) ∧
    (crosslistPairList c10input).any
      (fun pr => pr.1.1 == "S1" || pr.2.1 == "S1") = true :=
  ⟨rfl, by decide, by decide⟩

/-- C10, witness: the amended statement at the concrete dangling-id input. -/
theorem c10_witness :
    c10wsec ∈ c10winput.sections ∧
    c10wsec.crosslist_group_id = some "GY" ∧
    "GY" ≠ "" ∧
    (∀ g ∈ c10winput.crosslist_groups, g.id ≠ "GY") ∧
    ((∀ o ∈ sectionOptions c10winput noFlags c10wsec,
      ∃ room ∈ c10winput.rooms, o.room_id = room.id ∧
        crosslistTotal c10winput.sections "GY" ≤ room.capacity) ∧
    sectionRoomshareRaw c10winput c10wsec = "sec:" ++ c10wsec.id ∧
    ((c10winput.sections.map (fun sec => sec.id)).Nodup →
      roomshareKey c10winput c10wsec.id = "sec:" ++ c10wsec.id) ∧
    ((∀ g ∈ c10winput.crosslist_groups, c10wsec.id ∉ g.member_section_ids) →
      ∀ pr ∈ crosslistPairList c10winput, pr.1.1 ≠ c10wsec.id ∧ pr.2.1 ≠ c10wsec.id)) :=
  ⟨by decide, rfl, by decide, by decide,
    c10_dangling_crosslist_id c10winput c10wsec "GY" (by decide) rfl (by decide)
      (by decide)⟩

theorem sum_map_flatMap {α β : Type} (l : List α) (f : α → List β) (g : β → ℤ) :
    ((l.flatMap f).map g).sum = (l.map (fun a => ((f a).map g).sum)).sum := by
  induction l with
  | nil => rfl
  | cons a rest ih =>
    rw [List.flatMap_cons, List.map_append, List.sum_append, ih,
      List.map_cons, List.sum_cons]

theorem cast_sum_q (l : List ℤ) :
    ((l.sum : ℤ) : ℚ) = (l.map (fun z : ℤ => (z : ℚ))).sum := by
  induction l with
  | nil => simp
  | cons a rest ih =>
    rw [List.sum_cons, List.map_cons, List.sum_cons, Int.cast_add, ih]

theorem sum_map_congr {α : Type} (l : List α) (f g : α → ℚ)
    (h : ∀ a ∈ l, f a = g a) : (l.map f).sum = (l.map g).sum := by
  rw [List.map_congr_left h]

/-- The six-category breakdown sum regrouped as a per-entry sum plus the
adjunct part. -/
theorem breakdownSum_eq_entry_sum (input : SchedulingInput)
    (entries : List (String × List ProgOption)) (x : String × Nat → Bool)
    (e : String → ℤ) :
    breakdownSum input entries x e =
      (entries.map (entryPenalty input x)).sum + penaltyAdjunct input e := by
  unfold breakdownSum penaltyRoomWaste penaltyDayPref penaltyPatternPref
    penaltySoftTime penaltySoftRoom
  rw [show ∀ a b c d f g : ℚ, a + b + c + d + f + g = ((a + b + c + f + g) + d)
    from by intro a b c d f g; ring]
  congr 1
  rw [← sum_map_add_q, ← sum_map_add_q, ← sum_map_add_q, ← sum_map_add_q]
  apply sum_map_congr
  intro p hp
  unfold entryPenalty
  cases hch : chosenOption x p with
  | none => norm_num
  | some o =>
    cases hsl : softLockBySection input p.1 with
    | none => norm_num
    | some lock =>
      unfold softMismatchPenalty
      ring

/-- With nonnegative integer soft-lock weights, the truncated objective
coefficient of an option equals the untruncated float penalty the assembler
books. -/
theorem softContribution_cast (input : SchedulingInput) (sid : String)
    (o : ProgOption)
    (hw : ∀ lock ∈ input.soft_locks, ∃ n : ℕ, lock.weight = (n : ℚ)) :
    ((softContribution input sid o : ℤ) : ℚ) =
      (match softLockBySection input sid with
       | some lock => softMismatchPenalty lock o
       | none => 0) := by
  cases hl : softLockBySection input sid with
  | none =>
    show ((softContribution input sid o : ℤ) : ℚ) = (0 : ℚ)
    unfold softContribution softLockTerm
    rw [hl]
    simp
  | some lock =>
    show ((softContribution input sid o : ℤ) : ℚ) = softMismatchPenalty lock o
    have hmem : lock ∈ input.soft_locks := by
      unfold softLockBySection at hl
      obtain ⟨l', hl', heq⟩ := List.mem_map.mp (lastLookup_mem hl)
      have h2 : l' = lock := congrArg Prod.snd heq
      exact h2 ▸ hl'
    obtain ⟨n, hn⟩ := hw lock hmem
    unfold softContribution
    rw [softLockTerm_eq input sid o lock hl]
    have hpen : softMismatchPenalty lock o =
        ((n * softMismatchCount lock o : ℕ) : ℚ) := by
      rw [softMismatchPenalty_eq, hn]
      push_cast
      ring
    by_cases hp : 0 < softMismatchPenalty lock o
    · rw [if_pos hp, Option.getD_some, hpen, pyInt_natCast]
      push_cast
      ring
    · rw [if_neg hp, Option.getD_none]
      have h0 : softMismatchPenalty lock o = 0 :=
        le_antisymm (not_lt.mp hp) (by rw [hpen]; positivity)
      rw [h0]
      simp

theorem sum_mul_base (input : SchedulingInput) (x : String × Nat → Bool)
    (p : String × List ProgOption)
    (hxp : (p.2.enum.map (fun q => b2z (x (p.1, q.1)))).sum = 1) :
    (p.2.enum.map (fun q => b2z (x (p.1, q.1)) * basePenalty input p.1 q.2)).sum =
      chosenBase input x p := by
  have h := sum_mul_of_sum_b2z_one p.2.enum (fun q => x (p.1, q.1))
    (fun q => basePenalty input p.1 q.2) hxp
  rw [h]
  unfold chosenBase chosenOption
  cases hq : p.2.enum.find? (fun q => x (p.1, q.1)) with
  | none => rfl
  | some q => rfl

theorem sum_mul_soft (input : SchedulingInput) (x : String × Nat → Bool)
    (p : String × List ProgOption)
    (hxp : (p.2.enum.map (fun q => b2z (x (p.1, q.1)))).sum = 1) :
    (p.2.enum.map
      (fun q => b2z (x (p.1, q.1)) * softContribution input p.1 q.2)).sum =
      chosenSoft input x p := by
  have h := sum_mul_of_sum_b2z_one p.2.enum (fun q => x (p.1, q.1))
    (fun q => softContribution input p.1 q.2) hxp
  rw [h]
  unfold chosenSoft chosenOption
  cases hq : p.2.enum.find? (fun q => x (p.1, q.1)) with
  | none => rfl
  | some q => rfl

/-- With duplicate-free instructor ids, the assembler's adjunct category
equals the objective's adjunct part. -/
theorem penaltyAdjunct_cast (input : SchedulingInput) (e : String → ℤ)
    (hnd : (input.instructors.map (fun i => i.id)).Nodup) :
    penaltyAdjunct input e = ((objectiveAdjunct input e : ℤ) : ℚ) := by
  have hndadj : ((adjunctInstructors input).map (fun i => i.id)).Nodup :=
    List.Nodup.sublist (List.Sublist.map _ (List.filter_sublist _)) hnd
  unfold penaltyAdjunct objectiveAdjunct
  rw [dedupKeys_eq_self hndadj, cast_sum_q, List.map_map, List.map_map]
  apply sum_map_congr
  intro i hi
  by_cases hz : e i.id = 0
  · simp [hz]
  · simp [hz]

/-- Per entry, the assembler's booked penalties equal the chosen option's
objective coefficients, given integral nonnegative soft-lock weights. -/
theorem entryPenalty_cast (input : SchedulingInput) (x : String × Nat → Bool)
    (p : String × List ProgOption)
    (hw : ∀ lock ∈ input.soft_locks, ∃ n : ℕ, lock.weight = (n : ℚ))
    (hxp : (p.2.enum.map (fun q => b2z (x (p.1, q.1)))).sum = 1) :
    entryPenalty input x p =
      ((chosenBase input x p : ℤ) : ℚ) + ((chosenSoft input x p : ℤ) : ℚ) := by
  have hfind := find?_isSome_of_sum_b2z_one p.2.enum (fun q => x (p.1, q.1)) hxp
  unfold entryPenalty chosenBase chosenSoft chosenOption
  cases hq : p.2.enum.find? (fun q => x (p.1, q.1)) with
  | none =>
    rw [hq] at hfind
    exact absurd hfind (by simp)
  | some q =>
    show ((q.2.room_waste * ROOM_WASTE_WEIGHT : ℤ) : ℚ) +
        ((prefDayPenalty input (instructorForSection input p.1) q.2 : ℤ) : ℚ) +
        ((prefPatternPenalty (instructorForSection input p.1) q.2 : ℤ) : ℚ) +
        (match softLockBySection input p.1 with
         | some lock => softMismatchPenalty lock q.2
         | none => 0) =
      ((basePenalty input p.1 q.2 : ℤ) : ℚ) +
        ((softContribution input p.1 q.2 : ℤ) : ℚ)
    rw [softContribution_cast input p.1 q.2 hw]
    unfold basePenalty
    push_cast
    ring

/-- C1, amended: the reported `total_score` is by construction the sum of the
six `penalty_breakdown` values; and for every 0/1 assignment of the option
variables satisfying the exactly-one constraints (in particular, every
assignment satisfying the full model), the breakdown recomputed by the result
assembler sums to the minimized objective evaluated at that assignment —
provided every soft-lock weight is a nonnegative integer (fractional or
negative weights break the equality; see the counterexample). -/
theorem c1_score_consistency (input : SchedulingInput)
    (x : String × Nat → Bool) (e : String → ℤ)
    (hnd : (input.instructors.map (fun i => i.id)).Nodup)
    (hw : ∀ lock ∈ input.soft_locks, ∃ n : ℕ, lock.weight = (n : ℚ))
    (hx : checkExactlyOne (optionEntries input noFlags) x = true) :
    totalScore input (optionEntries input noFlags) x e =
      breakdownSum input (optionEntries input noFlags) x e ∧
    breakdownSum input (optionEntries input noFlags) x e =
      ((objective input (optionEntries input noFlags) x e : ℤ) : ℚ) := by
  refine ⟨rfl, ?_⟩
  unfold checkExactlyOne at hx
  rw [List.all_eq_true] at hx
  unfold objective
  have hbase : ((optionItems (optionEntries input noFlags)).map
      (fun q => b2z (x q.1) * basePenalty input q.1.1 q.2)).sum =
    ((optionEntries input noFlags).map (chosenBase input x)).sum := by
    unfold optionItems
    rw [sum_map_flatMap]
    apply congrArg
    apply List.map_congr_left
    intro p hp
    rw [List.map_map]
    have h1 : ((fun q : (String × Nat) × ProgOption =>
        b2z (x q.1) * basePenalty input q.1.1 q.2) ∘
        (fun q : ℕ × ProgOption => ((p.1, q.1), q.2))) =
        fun q : ℕ × ProgOption =>
          b2z (x (p.1, q.1)) * basePenalty input p.1 q.2 := rfl
    rw [h1]
    have hxp : sectionVarSum x p.1 p.2 = 1 := by simpa using hx p hp
    unfold sectionVarSum at hxp
    exact sum_mul_base input x p hxp
  have hsoft : ((optionItems (optionEntries input noFlags)).map
      (fun q => b2z (x q.1) * softContribution input q.1.1 q.2)).sum =
    ((optionEntries input noFlags).map (chosenSoft input x)).sum := by
    unfold optionItems
    rw [sum_map_flatMap]
    apply congrArg
    apply List.map_congr_left
    intro p hp
    rw [List.map_map]
    have h1 : ((fun q : (String × Nat) × ProgOption =>
        b2z (x q.1) * softContribution input q.1.1 q.2) ∘
        (fun q : ℕ × ProgOption => ((p.1, q.1), q.2))) =
        fun q : ℕ × ProgOption =>
          b2z (x (p.1, q.1)) * softContribution input p.1 q.2 := rfl
    rw [h1]
    have hxp : sectionVarSum x p.1 p.2 = 1 := by simpa using hx p hp
    unfold sectionVarSum at hxp
    exact sum_mul_soft input x p hxp
  rw [hbase, hsoft, breakdownSum_eq_entry_sum]
  rw [penaltyAdjunct_cast input e hnd]
  have hentry : ((optionEntries input noFlags).map (entryPenalty input x)).sum =
      ((optionEntries input noFlags).map
        (fun p => ((chosenBase input x p : ℤ) : ℚ))).sum +
      ((optionEntries input noFlags).map
        (fun p => ((chosenSoft input x p : ℤ) : ℚ))).sum := by
    rw [← sum_map_add_q]
    apply sum_map_congr
    intro p hp
    have hxp : sectionVarSum x p.1 p.2 = 1 := by simpa using hx p hp
    unfold sectionVarSum at hxp
    exact entryPenalty_cast input x p hw hxp
  rw [hentry]
  push_cast [cast_sum_q, List.map_map]
  simp only [Function.comp_def]
  ring

/-- C1, counterexample.  The only assignment satisfying the full model books
objective `int(3/2) = 1` for the soft-lock room mismatch, while the
assembler's breakdown books the untruncated float `3/2`; the breakdown sum
does not equal the objective value. -/
theorem c1_counterexample :
    checkFullModel c1input x1 u1 d1 e1 = true ∧
    breakdownSum c1input (optionEntries c1input noFlags) x1 e1 ≠
      ((objective c1input (optionEntries c1input noFlags) x1 e1 : ℤ) : ℚ) := by
  have hent : optionEntries c1input noFlags = [("S1", [c1opt])] := by decide
  have hitems : optionItems (optionEntries c1input noFlags) =
      [(("S1", 0), c1opt)] := by decide
  have hpen : softMismatchPenalty c1lock c1opt = 3/2 := by
    rw [softMismatchPenalty_eq]
    rw [show softMismatchCount c1lock c1opt = 1 from rfl]
    norm_num [c1lock]
  have hsc : softContribution c1input "S1" c1opt = 1 := by
    unfold softContribution
    rw [softLockTerm_eq c1input "S1" c1opt c1lock rfl]
    rw [hpen, if_pos (by norm_num : (0:ℚ) < 3/2), Option.getD_some,
      pyInt_of_nonneg (by norm_num : (0:ℚ) ≤ 3/2)]
    norm_num
  have hobj : objective c1input (optionEntries c1input noFlags) x1 e1 = 1 := by
    unfold objective
    rw [hitems]
    simp only [List.map_cons, List.map_nil, List.sum_cons, List.sum_nil]
    rw [show objectiveAdjunct c1input e1 = 0 from by decide,
      show b2z (x1 ("S1", 0)) = 1 from rfl,
      show basePenalty c1input "S1" c1opt = 0 from by decide, hsc]
    ring
  have hbd : breakdownSum c1input (optionEntries c1input noFlags) x1 e1 =
      3/2 := by
    rw [breakdownSum_eq_entry_sum, hent]
    simp only [List.map_cons, List.map_nil, List.sum_cons, List.sum_nil]
    rw [show penaltyAdjunct c1input e1 = 0 from rfl]
    show ((c1opt.room_waste * ROOM_WASTE_WEIGHT : ℤ) : ℚ) +
        ((prefDayPenalty c1input (instructorForSection c1input "S1") c1opt : ℤ) : ℚ) +
        ((prefPatternPenalty (instructorForSection c1input "S1") c1opt : ℤ) : ℚ) +
        softMismatchPenalty c1lock c1opt + 0 + 0 = 3/2
    rw [show (c1opt.room_waste * ROOM_WASTE_WEIGHT : ℤ) = 0 from by decide,
      show prefDayPenalty c1input (instructorForSection c1input "S1") c1opt = 0
        from by decide,
      show prefPatternPenalty (instructorForSection c1input "S1") c1opt = 0
        from by decide, hpen]
    norm_num
  refine ⟨by decide, ?_⟩
  rw [hobj, hbd]
  norm_num

/-- C1, witness: score consistency at a concrete input with an integral
soft-lock weight. -/
theorem c1_witness :
    (c1winput.instructors.map (fun i => i.id)).Nodup ∧
    (∀ lock ∈ c1winput.soft_locks, ∃ n : ℕ, lock.weight = (n : ℚ)) ∧
    checkExactlyOne (optionEntries c1winput noFlags) x1 = true ∧
    (totalScore c1winput (optionEntries c1winput noFlags) x1 e1 =
       breakdownSum c1winput (optionEntries c1winput noFlags) x1 e1 ∧
     breakdownSum c1winput (optionEntries c1winput noFlags) x1 e1 =
       ((objective c1winput (optionEntries c1winput noFlags) x1 e1 : ℤ) : ℚ)) := by
  have hw : ∀ lock ∈ c1winput.soft_locks, ∃ n : ℕ, lock.weight = (n : ℚ) := by
    intro lock hl
    have hl' : lock ∈ [c1wlock] := hl
    rw [List.mem_singleton] at hl'
    subst hl'
    exact ⟨2, by norm_num [c1wlock]⟩
  exact ⟨by decide, hw, by decide,
    c1_score_consistency c1winput x1 e1 (by decide) hw (by decide)⟩
